import Mathlib

/-!
# WebSocket-Node `xor` native module (`src/xor.cpp`)

A shallow embedding of the buffer-masking primitive of WebSocket-Node and of
its argument-validating entry point, followed by theorems about them.

Conventions of the embedding

* a byte is a natural number below 256 (`IsBytes`); a memory region is a list
  of bytes; a pointer into a region is an offset;
* a read or write outside a region is undefined behaviour in C++ and is
  `none` here, so a theorem stating `= some _` also states memory safety;
* `while` loops carry a fuel argument; `_xor` supplies `length + 1`, and the
  theorems show that this is always enough;
* the platform byte order is the parameter `Endian`; `size_t` has 64 bits (only
  its value modulo 4 is ever used); alignment of the word accesses is not
  modelled;
* the V8 and node calls (`IsInt32`, `Utf8Value`, `Buffer::HasInstance`, ...) are
  library code outside the repository and are modelled by what they document.
-/

namespace XorModule

/-! ## Memory -/

/-- Byte order in which the platform lays out a 32-bit word in memory. -/
inductive Endian
  | little
  | big
  deriving DecidableEq, Repr

/-- Every element of the list is a byte value. -/
def IsBytes (l : List Nat) : Prop := ∀ x ∈ l, x < 256

instance (l : List Nat) : Decidable (IsBytes l) := by
  unfold IsBytes; infer_instance

/-- Read `n` bytes at offset `off` of region `src`; out of bounds is `none`. -/
def readBytes (src : List Nat) (off n : Nat) : Option (List Nat) :=
  if off + n ≤ src.length then some ((src.drop off).take n) else none

/-- Overwrite region `dst` at offset `off` with `bs`; out of bounds is `none`. -/
def writeBytes (dst : List Nat) (off : Nat) (bs : List Nat) : Option (List Nat) :=
  if off + bs.length ≤ dst.length then
    some (dst.take off ++ bs ++ dst.drop (off + bs.length))
  else none

/-- C `memcpy(dst + dstOff, src + srcOff, n)` on non-overlapping regions. -/
def memcpy (dst : List Nat) (dstOff : Nat) (src : List Nat) (srcOff n : Nat) :
    Option (List Nat) :=
  match readBytes src srcOff n with
  | none => none
  | some bs => writeBytes dst dstOff bs

/-- The `uint32_t` stored in four consecutive bytes. -/
def wordOfBytes : Endian → List Nat → Nat
  | .little, [b0, b1, b2, b3] => b0 + 256 * b1 + 65536 * b2 + 16777216 * b3
  | .big, [b0, b1, b2, b3] => b3 + 256 * b2 + 65536 * b1 + 16777216 * b0
  | _, _ => 0

/-- The four bytes in which a `uint32_t` is stored. -/
def bytesOfWord : Endian → Nat → List Nat
  | .little, w => [w % 256, w / 256 % 256, w / 65536 % 256, w / 16777216 % 256]
  | .big, w => [w / 16777216 % 256, w / 65536 % 256, w / 256 % 256, w % 256]

/-- Dereference of a `uint32_t*` pointing at byte offset `off`. -/
def load32 (e : Endian) (mem : List Nat) (off : Nat) : Option Nat :=
  match readBytes mem off 4 with
  | none => none
  | some bs => some (wordOfBytes e bs)

/-- Store through a `uint32_t*` pointing at byte offset `off`. -/
def store32 (e : Endian) (mem : List Nat) (off : Nat) (w : Nat) : Option (List Nat) :=
  writeBytes mem off (bytesOfWord e (w % 4294967296))

/-- Conversion `(int) x` of an unsigned value to a 32-bit `int` (two's complement). -/
def toInt32 (x : Nat) : Int :=
  if x % 4294967296 < 2147483648 then (x % 4294967296 : Nat)
  else ((x % 4294967296 : Nat) : Int) - 4294967296

/-- Conversion of an `int` to `size_t` (64-bit). -/
def toSizeT (x : Int) : Nat := (x % 18446744073709551616).toNat

/-! ## The engine `_xor` -/

/-- First loop of `_xor`: `while (pos32 < end32) *(pos32++) ^= *mask32;`.
`pos32` and `end32` count 32-bit words from `data`; the result is the memory
and the final `pos32`. -/
def wordLoop (e : Endian) (mask : List Nat) (end32 : Int) :
    Nat → List Nat → Nat → Option (List Nat × Nat)
  | 0, _, _ => none
  | fuel + 1, data, pos32 =>
    if (pos32 : Int) < end32 then
      match load32 e data (4 * pos32), load32 e mask 0 with
      | some w, some mask32 =>
        match store32 e data (4 * pos32) (w ^^^ mask32) with
        | some data1 => wordLoop e mask end32 fuel data1 (pos32 + 1)
        | none => none
      | _, _ => none
    else some (data, pos32)

/-- Second loop of `_xor`: `while (pos8 < end8) *(pos8++) ^= *(mask8++);`.
`pos8` and `end8` are byte offsets from `data`, `mask8` a byte offset from
`mask`; the result is the memory and the final `mask8`. -/
def byteLoop (mask : List Nat) (end8 : Nat) :
    Nat → List Nat → Nat → Nat → Option (List Nat × Nat)
  | 0, _, _, _ => none
  | fuel + 1, data, pos8, mask8 =>
    if pos8 < end8 then
      match data[pos8]?, mask[mask8]? with
      | some d, some m =>
        byteLoop mask end8 fuel (data.set pos8 ((d ^^^ m) % 256)) (pos8 + 1) (mask8 + 1)
      | _, _ => none
    else some (data, mask8)

set_option linter.unusedVariables false in
/-- The function `_xor(buffer, pattern, size, maskOffset)`: the contents of
`buffer` after the call and the returned integer. `pattern` is the region the
pointer `pattern` points into; `size` is not used, as in the source. -/
def _xor (e : Endian) (buffer : List Nat) (pattern : List Nat) (size : Nat)
    (maskOffset : Nat) : Option (List Nat × Nat) :=
  let length := buffer.length
  let data := buffer
  let maskOffset := maskOffset &&& 3
  match memcpy [0, 0, 0, 0] 0 pattern maskOffset (4 - maskOffset) with
  | none => none
  | some mask0 =>
    match (if maskOffset > 0 then memcpy mask0 (4 - maskOffset) pattern 0 maskOffset
           else some mask0) with
    | none => none
    | some mask =>
      let pos32 : Nat := 0
      let end32 : Int := (pos32 : Int) + toInt32 (length >>> 2)
      match wordLoop e mask end32 (length + 1) data pos32 with
      | none => none
      | some (data1, pos32) =>
        let pos8 := 4 * pos32
        let end8 := length
        let mask8 : Nat := 0
        match byteLoop mask end8 (length + 1) data1 pos8 mask8 with
        | none => none
        | some (data2, mask8) => some (data2, (mask8 + maskOffset) &&& 3)

/-- The function `_xorInt(buffer, c, maskOffset)`: `&c` points at the four bytes of
the `int` in the platform byte order. -/
def _xorInt (e : Endian) (buffer : List Nat) (c : Int) (maskOffset : Nat) :
    Option (List Nat × Nat) :=
  _xor e buffer (bytesOfWord e (c % 4294967296).toNat) 4 maskOffset

/-! ## The engine, instrumented

The same code as `wordLoop`, `byteLoop` and `_xor`, recording in addition how
often each loop body runs and which offsets of `data`, `mask` and `pattern`
are accessed. -/

/-- The offsets `off, off + 1, ..., off + n - 1`. -/
def span (off n : Nat) : List Nat := (List.range n).map fun i => off + i

/-- Record of the accesses of one loop. -/
structure LoopTrace where
  /-- Number of executions of the loop body. -/
  iterations : Nat
  /-- Byte offsets of `data` read and written. -/
  dataIdx : List Nat
  /-- Byte offsets of `mask` read. -/
  maskIdx : List Nat
  deriving DecidableEq, Repr

/-- Record of the accesses of one call of `_xor`. -/
structure Trace where
  /-- Executions of the body of the word loop. -/
  wordIterations : Nat
  /-- Executions of the body of the tail loop. -/
  byteIterations : Nat
  /-- Byte offsets of the buffer read and written by the two loops. -/
  bufferIndices : List Nat
  /-- Byte offsets of `mask` written by the two `memcpy` and read by the two loops. -/
  maskIndices : List Nat
  /-- Byte offsets of `pattern` read by the two `memcpy`. -/
  patternIndices : List Nat
  deriving DecidableEq, Repr

/-- The loop `wordLoop` with its trace: each iteration accesses the four bytes of
`data` at `4 * pos32` and the four bytes of `mask`. -/
def wordLoopTraced (e : Endian) (mask : List Nat) (end32 : Int) :
    Nat → List Nat → Nat → Option (List Nat × Nat × LoopTrace)
  | 0, _, _ => none
  | fuel + 1, data, pos32 =>
    if (pos32 : Int) < end32 then
      match load32 e data (4 * pos32), load32 e mask 0 with
      | some w, some mask32 =>
        match store32 e data (4 * pos32) (w ^^^ mask32) with
        | some data1 =>
          match wordLoopTraced e mask end32 fuel data1 (pos32 + 1) with
          | some (data2, pos, t) =>
            some (data2, pos,
              LoopTrace.mk (t.iterations + 1) (span (4 * pos32) 4 ++ t.dataIdx)
                (span 0 4 ++ t.maskIdx))
          | none => none
        | none => none
      | _, _ => none
    else some (data, pos32, LoopTrace.mk 0 [] [])

/-- The loop `byteLoop` with its trace: each iteration accesses `data[pos8]` and
`mask[mask8]`. -/
def byteLoopTraced (mask : List Nat) (end8 : Nat) :
    Nat → List Nat → Nat → Nat → Option (List Nat × Nat × LoopTrace)
  | 0, _, _, _ => none
  | fuel + 1, data, pos8, mask8 =>
    if pos8 < end8 then
      match data[pos8]?, mask[mask8]? with
      | some d, some m =>
        match byteLoopTraced mask end8 fuel (data.set pos8 ((d ^^^ m) % 256)) (pos8 + 1)
            (mask8 + 1) with
        | some (data2, mask9, t) =>
          some (data2, mask9,
            LoopTrace.mk (t.iterations + 1) (pos8 :: t.dataIdx) (mask8 :: t.maskIdx))
        | none => none
      | _, _ => none
    else some (data, mask8, LoopTrace.mk 0 [] [])

set_option linter.unusedVariables false in
/-- The function `_xor` with its trace. The first `memcpy` reads `pattern` at
`maskOffset .. 3` and writes `mask` at `0 .. 3 - maskOffset`; the second reads
`pattern` at `0 .. maskOffset - 1` and writes `mask` at `4 - maskOffset .. 3`. -/
def _xorTraced (e : Endian) (buffer : List Nat) (pattern : List Nat) (size : Nat)
    (maskOffset : Nat) : Option (List Nat × Nat × Trace) :=
  let length := buffer.length
  let data := buffer
  let maskOffset := maskOffset &&& 3
  match memcpy [0, 0, 0, 0] 0 pattern maskOffset (4 - maskOffset) with
  | none => none
  | some mask0 =>
    match (if maskOffset > 0 then memcpy mask0 (4 - maskOffset) pattern 0 maskOffset
           else some mask0) with
    | none => none
    | some mask =>
      let copied := span maskOffset (4 - maskOffset)
        ++ (if maskOffset > 0 then span 0 maskOffset else [])
      let filled := span 0 (4 - maskOffset)
        ++ (if maskOffset > 0 then span (4 - maskOffset) maskOffset else [])
      let pos32 : Nat := 0
      let end32 : Int := (pos32 : Int) + toInt32 (length >>> 2)
      match wordLoopTraced e mask end32 (length + 1) data pos32 with
      | none => none
      | some (data1, pos32, t32) =>
        let pos8 := 4 * pos32
        let end8 := length
        let mask8 : Nat := 0
        match byteLoopTraced mask end8 (length + 1) data1 pos8 mask8 with
        | none => none
        | some (data2, mask8, t8) =>
          some (data2, (mask8 + maskOffset) &&& 3,
            Trace.mk t32.iterations t8.iterations (t32.dataIdx ++ t8.dataIdx)
              (filled ++ t32.maskIdx ++ t8.maskIdx) copied)

/-! ## JavaScript values and the entry point `xorBuffer` -/

/-- A JavaScript value, as far as `xorBuffer` can tell values apart. -/
inductive Value
  /-- A Number whose value is the integer `n` (any magnitude; not `-0`). -/
  | int (n : Int)
  /-- Any other Number: a fraction, `NaN`, an infinity, `-0`. -/
  | number
  /-- A String, given by its Unicode characters. -/
  | string (s : String)
  /-- A node `Buffer` object, given by its bytes. -/
  | buffer (bytes : List Nat)
  /-- Anything else: `undefined`, `null`, a boolean, another object. -/
  | misc
  deriving DecidableEq, Repr

/-- V8 `Value::IsInt32()`: the value is a Number that is an integer in the range of
a 32-bit signed `int`. -/
def Value.IsInt32 : Value → Bool
  | .int n => decide (-2147483648 ≤ n ∧ n ≤ 2147483647)
  | _ => false

/-- V8 `ToInt32()->Int32Value()` on a value for which `IsInt32()` holds (reduction
modulo 2^32 into the signed range, the identity there). -/
def Value.Int32Value : Value → Int
  | .int n => (n + 2147483648) % 4294967296 - 2147483648
  | _ => 0

/-- V8 `Value::IsString()`. -/
def Value.IsString : Value → Bool
  | .string _ => true
  | _ => false

/-- The bytes of V8 `String::Utf8Value`: the UTF-8 encoding of the string. -/
def Utf8Value (s : String) : List Nat :=
  s.data.flatMap fun c => (String.utf8EncodeChar c).map UInt8.toNat

/-- V8 `ToString()` followed by `String::Utf8Value`, on a String. -/
def Value.Utf8Value : Value → List Nat
  | .string s => XorModule.Utf8Value s
  | _ => []

/-- Node `Buffer::HasInstance`. -/
def Buffer.HasInstance : Value → Bool
  | .buffer _ => true
  | _ => false

/-- Node `Buffer::Data` together with `Buffer::Length`: the bytes of the object. -/
def Buffer.Data : Value → List Nat
  | .buffer bytes => bytes
  | _ => []

/-- The names of the exceptions declared by `XOR_BUFFER_THROW_EXCEPTION` in
`xorBuffer`. -/
inductive XorException
  | illegalArgumentCountException
  | illegalFirstArgumentException
  | illegalThirdArgumentException
  | illegalStringArgumentException
  | illegalArgumentException
  deriving DecidableEq, Repr

/-- How a call of `xorBuffer` completes: it throws a `TypeError` with a message, or
returns an integer. -/
inductive Completion
  | threw (name : XorException) (msg : String)
  | returned (value : Nat)
  deriving DecidableEq, Repr

/-- V8 `args[i]`: the argument, `undefined` beyond `args.Length()`. -/
def arg (args : List Value) (i : Nat) : Value := args.getD i Value.misc

/-- Expansion of `XOR_BUFFER_THROW_EXCEPTION(name, msg)`: return at once, throwing;
no object has been written. -/
def throwException (args : List Value) (name : XorException) (msg : String) :
    Option (List Value × Completion) :=
  some (args, Completion.threw name msg)

/-- Completion `return _xor(buffer, ...)`: the first argument now holds the bytes
`_xor` left in it. -/
def returnXor (args : List Value) (r : Option (List Nat × Nat)) :
    Option (List Value × Completion) :=
  match r with
  | none => none
  | some (data, phase) => some (args.set 0 (Value.buffer data), Completion.returned phase)

/-- Lines 72-89 of `xorBuffer`: dispatch on the key `args[1]`. -/
def xorBufferKey (e : Endian) (args : List Value) (buffer : List Nat) (maskOffset : Nat) :
    Option (List Value × Completion) :=
  if (arg args 1).IsInt32 then
    let c := (arg args 1).Int32Value
    returnXor args (_xorInt e buffer c maskOffset)
  else if (arg args 1).IsString then
    let s := (arg args 1).Utf8Value
    if s.length ≠ 4 then
      throwException args .illegalStringArgumentException
        "Second argument must be a 4 character string"
    else returnXor args (_xor e buffer s s.length maskOffset)
  else if Buffer.HasInstance (arg args 1) then
    let other := arg args 1
    let length := (Buffer.Data other).length
    let data := Buffer.Data other
    if length ≠ 4 then
      throwException args .illegalStringArgumentException
        "Second argument must be a 4 bytes Buffer"
    else returnXor args (_xor e buffer data length maskOffset)
  else
    throwException args .illegalArgumentException
      "Second argument should be either a string, a buffer or an integer."

/-- The function `xorBuffer(args)`: the arguments after the call (the first one
mutated in place on success) and the completion. Buffers are passed by value
here; `_xor` copies the key into its local `mask` before its first write, so a
key that is the same object as the first argument masks it the same way. -/
def xorBuffer (e : Endian) (args : List Value) : Option (List Value × Completion) :=
  if args.length < 2 then
    throwException args .illegalArgumentCountException "Expected 2 arguments"
  else if !Buffer.HasInstance (arg args 0) then
    throwException args .illegalFirstArgumentException "First argument must be a Buffer"
  else
    let buffer := Buffer.Data (arg args 0)
    if args.length = 3 then
      if !(arg args 2).IsInt32 then
        throwException args .illegalThirdArgumentException "Third argument must be a number"
      else
        xorBufferKey e args buffer (toSizeT (arg args 2).Int32Value)
    else
      xorBufferKey e args buffer 0

/-! ## Vocabulary of the statements -/

/-- The optional third argument is well formed: absent, or a value accepted by
`IsInt32`. -/
def ValidPhase : List Value → Prop
  | [] => True
  | [v] => v.IsInt32 = true
  | _ => False

instance (rest : List Value) : Decidable (ValidPhase rest) := by
  unfold ValidPhase; split <;> infer_instance

/-- The value `maskOffset` holds when `xorBuffer` reaches the key dispatch, for the
arguments `rest` that follow the key. -/
def phaseOf : List Value → Nat
  | [v] => toSizeT v.Int32Value
  | _ => 0

/-- The pattern `xorBufferKey` hands to `_xor` for a key it accepts, `none` for a
key it rejects. -/
def keyMask (e : Endian) : Value → Option (List Nat)
  | .int n =>
    if -2147483648 ≤ n ∧ n ≤ 2147483647 then some (bytesOfWord e (n % 4294967296).toNat)
    else none
  | .string s => if (Utf8Value s).length = 4 then some (Utf8Value s) else none
  | .buffer k => if k.length = 4 then some k else none
  | _ => none

/-- The call completed normally, returning a phase. -/
def Accepted (r : Option (List Value × Completion)) : Prop :=
  ∃ args1 phase, r = some (args1, Completion.returned phase)

/-- Reference semantics of masking, following the specification: byte `i` of the
buffer is XOR-ed with `mask[(phase + i) mod 4]`. -/
def maskBytes (mask : List Nat) : Nat → List Nat → List Nat
  | _, [] => []
  | phase, x :: xs => (x ^^^ mask.getD (phase % 4) 0) :: maskBytes mask (phase + 1) xs

/-- Step 1 of the engine as the specification states it: the working mask `m'` with
`m'[i] = mask[(phase + i) mod 4]`. -/
def rotateMask (mask : List Nat) (phase : Nat) : List Nat :=
  (List.range 4).map fun i => mask.getD ((phase + i) % 4) 0

/-- Step 2 of the engine as the specification states it, the naive loop
`buffer[i] ^= m'[i mod 4]` over all valid indices `i`. -/
def naiveXor (working : List Nat) (buffer : List Nat) : List Nat :=
  (List.range buffer.length).map fun i => buffer.getD i 0 ^^^ working.getD (i % 4) 0

/-- The argument-count check, on its own: its exception when fewer than two arguments
are passed. -/
def countCheck (args : List Value) : Option XorException :=
  if args.length < 2 then some XorException.illegalArgumentCountException else none

/-- The first-argument check, on its own: its exception when the first argument is no
Buffer (an absent argument is `undefined`). -/
def bufferCheck (args : List Value) : Option XorException :=
  if Buffer.HasInstance (arg args 0) then none
  else some XorException.illegalFirstArgumentException

/-- The phase check, on its own: its exception when the call has exactly three
arguments and the third fails `IsInt32`. -/
def phaseCheck (args : List Value) : Option XorException :=
  if args.length = 3 ∧ (arg args 2).IsInt32 = false then
    some XorException.illegalThirdArgumentException
  else none

/-- The key check, on its own: the exception of a text or Buffer key that has not 4
bytes, or of a key that is neither accepted by `IsInt32`, nor a text, nor a Buffer. -/
def keyCheck (args : List Value) : Option XorException :=
  if (arg args 1).IsInt32 then none
  else if (arg args 1).IsString then
    if (arg args 1).Utf8Value.length = 4 then none
    else some XorException.illegalStringArgumentException
  else if Buffer.HasInstance (arg args 1) then
    if (Buffer.Data (arg args 1)).length = 4 then none
    else some XorException.illegalStringArgumentException
  else some XorException.illegalArgumentException

/-- Error precedence as the claim words it: of the four checks, taken in the order
count, first argument, phase, key, the exception of the first one that fails;
`none` when all four pass. -/
def firstError (args : List Value) : Option XorException :=
  [countCheck args, bufferCheck args, phaseCheck args, keyCheck args].findSome? id

/-- The mask `[m0, m1, m2, m3]` rotated left by `k` positions. -/
def rotated (m0 m1 m2 m3 : Nat) : Nat → List Nat
  | 0 => [m0, m1, m2, m3]
  | 1 => [m1, m2, m3, m0]
  | 2 => [m2, m3, m0, m1]
  | _ => [m3, m0, m1, m2]

/-! ## Lemmas on bytes and words -/

theorem xor_split (a b c d : Nat) (ha : a < 256) (hc : c < 256) :
    (a + 256 * b) ^^^ (c + 256 * d) = (a ^^^ c) + 256 * (b ^^^ d) := by
  have hac : a ^^^ c < 2 ^ 8 := Nat.xor_lt_two_pow (by simpa using ha) (by simpa using hc)
  apply Nat.eq_of_testBit_eq
  intro j
  have h1 := Nat.testBit_mul_pow_two_add b (show a < 2 ^ 8 by simpa using ha) j
  have h2 := Nat.testBit_mul_pow_two_add d (show c < 2 ^ 8 by simpa using hc) j
  have h3 := Nat.testBit_mul_pow_two_add (b ^^^ d) hac j
  have e1 : a + 256 * b = 2 ^ 8 * b + a := by norm_num; omega
  have e2 : c + 256 * d = 2 ^ 8 * d + c := by norm_num; omega
  have e3 : (a ^^^ c) + 256 * (b ^^^ d) = 2 ^ 8 * (b ^^^ d) + (a ^^^ c) := by norm_num; omega
  rw [e1, e2, e3, Nat.testBit_xor, h1, h2, h3]
  by_cases hj : j < 8 <;> simp [hj]

theorem xor_byte_lt {a b : Nat} (ha : a < 256) (hb : b < 256) : a ^^^ b < 256 := by
  have := @Nat.xor_lt_two_pow a b 8 (by simpa using ha) (by simpa using hb)
  simpa using this

theorem xor_word (a b c d r0 r1 r2 r3 : Nat) (ha : a < 256) (hb : b < 256) (hc : c < 256)
    (hr0 : r0 < 256) (hr1 : r1 < 256) (hr2 : r2 < 256) :
    (a + 256 * b + 65536 * c + 16777216 * d) ^^^ (r0 + 256 * r1 + 65536 * r2 + 16777216 * r3)
      = (a ^^^ r0) + 256 * (b ^^^ r1) + 65536 * (c ^^^ r2) + 16777216 * (d ^^^ r3) := by
  have e1 : a + 256 * b + 65536 * c + 16777216 * d = a + 256 * (b + 256 * (c + 256 * d)) := by
    omega
  have e2 : r0 + 256 * r1 + 65536 * r2 + 16777216 * r3
      = r0 + 256 * (r1 + 256 * (r2 + 256 * r3)) := by omega
  rw [e1, e2, xor_split _ _ _ _ ha hr0, xor_split _ _ _ _ hb hr1, xor_split _ _ _ _ hc hr2]
  omega

theorem bytesOfWord_xor (e : Endian) (a b c d r0 r1 r2 r3 : Nat)
    (ha : a < 256) (hb : b < 256) (hc : c < 256) (hd : d < 256)
    (hr0 : r0 < 256) (hr1 : r1 < 256) (hr2 : r2 < 256) (hr3 : r3 < 256) :
    bytesOfWord e ((wordOfBytes e [a, b, c, d] ^^^ wordOfBytes e [r0, r1, r2, r3]) % 4294967296)
      = [a ^^^ r0, b ^^^ r1, c ^^^ r2, d ^^^ r3] := by
  have h0 := xor_byte_lt ha hr0
  have h1 := xor_byte_lt hb hr1
  have h2 := xor_byte_lt hc hr2
  have h3 := xor_byte_lt hd hr3
  cases e
  · simp only [wordOfBytes, bytesOfWord]
    rw [xor_word a b c d r0 r1 r2 r3 ha hb hc hr0 hr1 hr2]
    generalize a ^^^ r0 = A at *
    generalize b ^^^ r1 = B at *
    generalize c ^^^ r2 = C at *
    generalize d ^^^ r3 = D at *
    simp only [List.cons.injEq, and_true]
    refine ⟨?_, ?_, ?_, ?_⟩ <;> omega
  · simp only [wordOfBytes, bytesOfWord]
    rw [xor_word d c b a r3 r2 r1 r0 hd hc hb hr3 hr2 hr1]
    generalize a ^^^ r0 = A at *
    generalize b ^^^ r1 = B at *
    generalize c ^^^ r2 = C at *
    generalize d ^^^ r3 = D at *
    simp only [List.cons.injEq, and_true]
    refine ⟨?_, ?_, ?_, ?_⟩ <;> omega

/-! ## Lemmas on the reference semantics -/

theorem maskBytes_length (m : List Nat) (p : Nat) (xs : List Nat) :
    (maskBytes m p xs).length = xs.length := by
  induction xs generalizing p with
  | nil => rfl
  | cons x xs ih => simp [maskBytes, ih]

theorem maskBytes_append (m : List Nat) (p : Nat) (xs ys : List Nat) :
    maskBytes m p (xs ++ ys) = maskBytes m p xs ++ maskBytes m (p + xs.length) ys := by
  induction xs generalizing p with
  | nil => simp [maskBytes]
  | cons x xs ih =>
    have e : p + (xs.length + 1) = p + 1 + xs.length := by omega
    rw [List.cons_append, maskBytes, maskBytes, ih (p + 1), List.length_cons, e,
      List.cons_append]

theorem maskBytes_congr (m : List Nat) (p q : Nat) (h : p % 4 = q % 4) (xs : List Nat) :
    maskBytes m p xs = maskBytes m q xs := by
  induction xs generalizing p q with
  | nil => rfl
  | cons x xs ih =>
    simp only [maskBytes, h]
    rw [ih (p + 1) (q + 1) (by omega)]

theorem maskBytes_getD (m : List Nat) (p : Nat) (xs : List Nat) (i : Nat) (hi : i < xs.length) :
    (maskBytes m p xs).getD i 0 = xs.getD i 0 ^^^ m.getD ((p + i) % 4) 0 := by
  induction xs generalizing p i with
  | nil => simp at hi
  | cons x xs ih =>
    cases i with
    | zero => simp [maskBytes]
    | succ i =>
      simp only [maskBytes, List.getD_cons_succ]
      rw [ih (p + 1) i (by simpa using hi)]
      congr 3
      omega

theorem maskBytes_isBytes (m : List Nat) (p : Nat) (xs : List Nat)
    (hm : IsBytes m) (hx : IsBytes xs) : IsBytes (maskBytes m p xs) := by
  induction xs generalizing p with
  | nil => intro x hx; simp [maskBytes] at hx
  | cons x xs ih =>
    intro y hy
    simp only [maskBytes, List.mem_cons] at hy
    rcases hy with rfl | hy
    · apply xor_byte_lt (hx x (by simp))
      rw [List.getD_eq_getElem?_getD]
      cases hg : m[p % 4]? with
      | none => simp
      | some v => simpa using hm v (List.getElem?_mem hg)
    · exact ih (p + 1) (fun z hz => hx z (by simp [hz])) y hy

theorem maskBytes_involutive (m : List Nat) (p : Nat) (xs : List Nat) :
    maskBytes m p (maskBytes m p xs) = xs := by
  induction xs generalizing p with
  | nil => rfl
  | cons x xs ih => simp [maskBytes, ih, Nat.xor_cancel_right]

/-! ## The two loops of `_xor` -/

theorem exists_four (l : List Nat) (h : 4 ≤ l.length) :
    ∃ a b c d t, l = a :: b :: c :: d :: t := by
  match l, h with
  | a :: b :: c :: d :: t, _ => exact ⟨a, b, c, d, t, rfl⟩
  | [], h => simp at h
  | [_], h => simp at h
  | [_, _], h => simp at h
  | [_, _, _], h => simp at h

theorem wordLoop_spec (e : Endian) (r0 r1 r2 r3 : Nat) (hr : IsBytes [r0, r1, r2, r3]) :
    ∀ (n fuel : Nat) (pre rest : List Nat) (pos32 : Nat),
      pre.length = 4 * pos32 → n < fuel → 4 * n ≤ rest.length → IsBytes rest →
      wordLoop e [r0, r1, r2, r3] ((pos32 : Int) + (n : Int)) fuel (pre ++ rest) pos32
        = some (pre ++ maskBytes [r0, r1, r2, r3] 0 (rest.take (4 * n)) ++ rest.drop (4 * n),
            pos32 + n) := by
  intro n
  induction n with
  | zero =>
    intro fuel pre rest pos32 _ hf _ _
    cases fuel with
    | zero => omega
    | succ f => simp [wordLoop, maskBytes]
  | succ n ih =>
    intro fuel pre rest pos32 hpre hf hlen hb
    cases fuel with
    | zero => omega
    | succ f =>
      obtain ⟨a, b, c, d, rest1, rfl⟩ := exists_four rest (by omega)
      have hlt : (pos32 : Int) < (pos32 : Int) + ((n + 1 : Nat) : Int) := by omega
      have hload : load32 e (pre ++ a :: b :: c :: d :: rest1) (4 * pos32)
          = some (wordOfBytes e [a, b, c, d]) := by
        simp [load32, readBytes, ← hpre]
      have hmask : load32 e [r0, r1, r2, r3] 0 = some (wordOfBytes e [r0, r1, r2, r3]) := by
        simp [load32, readBytes]
      have hstore : store32 e (pre ++ a :: b :: c :: d :: rest1) (4 * pos32)
          (wordOfBytes e [a, b, c, d] ^^^ wordOfBytes e [r0, r1, r2, r3])
          = some ((pre ++ [a ^^^ r0, b ^^^ r1, c ^^^ r2, d ^^^ r3]) ++ rest1) := by
        rw [store32, bytesOfWord_xor e a b c d r0 r1 r2 r3
          (hb a (by simp)) (hb b (by simp)) (hb c (by simp)) (hb d (by simp))
          (hr r0 (by simp)) (hr r1 (by simp)) (hr r2 (by simp)) (hr r3 (by simp))]
        simp [writeBytes, ← hpre]
      have hrest : IsBytes rest1 := fun x hx => hb x (by simp [hx])
      have hlen1 : 4 * n ≤ rest1.length := by
        simp only [List.length_cons] at hlen; omega
      have hstep := ih f (pre ++ [a ^^^ r0, b ^^^ r1, c ^^^ r2, d ^^^ r3]) rest1 (pos32 + 1)
        (by simp [hpre]; omega) (by omega) hlen1 hrest
      have hend : ((pos32 + 1 : Nat) : Int) + (n : Int) = (pos32 : Int) + ((n + 1 : Nat) : Int) := by
        omega
      rw [hend] at hstep
      rw [wordLoop, if_pos hlt, hload, hmask]
      simp only [hstore, hstep]
      have e4 : 4 * (n + 1) = 4 * n + 1 + 1 + 1 + 1 := by omega
      simp only [e4, List.take_succ_cons, List.drop_succ_cons, maskBytes]
      simp
      exact ⟨maskBytes_congr _ _ _ (by norm_num) _, by omega⟩

theorem byteLoop_spec (mask : List Nat) (hm : IsBytes mask) :
    ∀ (rest : List Nat) (fuel : Nat) (pre : List Nat) (mask8 : Nat),
      rest.length < fuel → mask8 + rest.length ≤ mask.length → mask.length ≤ 4 → IsBytes rest →
      byteLoop mask (pre.length + rest.length) fuel (pre ++ rest) pre.length mask8
        = some (pre ++ maskBytes mask mask8 rest, mask8 + rest.length) := by
  intro rest
  induction rest with
  | nil =>
    intro fuel pre mask8 hf _ _ _
    cases fuel with
    | zero => simp at hf
    | succ f => simp [byteLoop, maskBytes]
  | cons x xs ih =>
    intro fuel pre mask8 hf hk h4 hb
    cases fuel with
    | zero => simp at hf
    | succ f =>
      simp only [List.length_cons] at hf hk
      have hlt : pre.length < pre.length + (x :: xs).length := by simp
      have hd : (pre ++ x :: xs)[pre.length]? = some x := by
        rw [List.getElem?_append_right (Nat.le_refl _)]; simp
      have hk4 : mask8 < mask.length := by omega
      have hmg : mask[mask8]? = some (mask.getD mask8 0) := by
        rw [List.getD_eq_getElem?_getD, List.getElem?_eq_getElem hk4]; simp
      have hmb : mask.getD mask8 0 < 256 := hm _ (List.getElem?_mem hmg)
      have hxb : x < 256 := hb x (by simp)
      have hmod : (x ^^^ mask.getD mask8 0) % 256 = x ^^^ mask.getD mask8 0 :=
        Nat.mod_eq_of_lt (xor_byte_lt hxb hmb)
      have hset : (pre ++ x :: xs).set pre.length (x ^^^ mask.getD mask8 0)
          = (pre ++ [x ^^^ mask.getD mask8 0]) ++ xs := by simp
      have hstep := ih f (pre ++ [x ^^^ mask.getD mask8 0]) (mask8 + 1) (by omega) (by omega) h4
        (fun z hz => hb z (by simp [hz]))
      have e1 : (pre ++ [x ^^^ mask.getD mask8 0]).length + xs.length
          = pre.length + (x :: xs).length := by simp; omega
      have e2 : (pre ++ [x ^^^ mask.getD mask8 0]).length = pre.length + 1 := by simp
      rw [e1, e2] at hstep
      rw [byteLoop, if_pos hlt, hd, hmg]
      simp only [hmod, hset, hstep]
      have e3 : mask8 % 4 = mask8 := Nat.mod_eq_of_lt (by omega)
      simp [maskBytes, e3]
      omega

/-! ## The engine computes the reference semantics -/

theorem rotated_isBytes (m0 m1 m2 m3 k : Nat) (hm : IsBytes [m0, m1, m2, m3]) :
    IsBytes (rotated m0 m1 m2 m3 k) := by
  intro x hx
  apply hm
  match k with
  | 0 => simpa [rotated] using hx
  | 1 => simp [rotated] at hx ⊢; tauto
  | 2 => simp [rotated] at hx ⊢; tauto
  | (k + 3) => simp [rotated] at hx ⊢; tauto

theorem rotated_length (m0 m1 m2 m3 k : Nat) : (rotated m0 m1 m2 m3 k).length = 4 := by
  match k with
  | 0 => rfl
  | 1 => rfl
  | 2 => rfl
  | (k + 3) => rfl

theorem memcpy_rotate (m0 m1 m2 m3 k : Nat) (hk : k < 4) :
    ∃ mask0, memcpy [0, 0, 0, 0] 0 [m0, m1, m2, m3] k (4 - k) = some mask0 ∧
      (if k > 0 then memcpy mask0 (4 - k) [m0, m1, m2, m3] 0 k else some mask0)
        = some (rotated m0 m1 m2 m3 k) := by
  have h : k = 0 ∨ k = 1 ∨ k = 2 ∨ k = 3 := by omega
  rcases h with rfl | rfl | rfl | rfl <;>
    simp [memcpy, readBytes, writeBytes, rotated]

theorem maskBytes_rotated (m0 m1 m2 m3 k : Nat) (hk : k < 4) (j : Nat) (xs : List Nat) :
    maskBytes (rotated m0 m1 m2 m3 k) j xs = maskBytes [m0, m1, m2, m3] (k + j) xs := by
  induction xs generalizing j with
  | nil => rfl
  | cons x xs ih =>
    rw [maskBytes, maskBytes, ih (j + 1), Nat.add_assoc]
    congr 2
    have h : k = 0 ∨ k = 1 ∨ k = 2 ∨ k = 3 := by omega
    have hj : j % 4 = 0 ∨ j % 4 = 1 ∨ j % 4 = 2 ∨ j % 4 = 3 := by omega
    rcases h with rfl | rfl | rfl | rfl <;> rcases hj with hj | hj | hj | hj <;>
      simp [rotated, hj, Nat.add_mod]

theorem toInt32_shift (n : Nat) (h : n < 2 ^ 33) : toInt32 (n >>> 2) = ((n / 4 : Nat) : Int) := by
  have h1 : n >>> 2 = n / 4 := by rw [Nat.shiftRight_eq_div_pow]
  have h2 : n / 4 < 2147483648 := by
    have : (2 : Nat) ^ 33 = 8589934592 := by norm_num
    omega
  rw [h1, toInt32, Nat.mod_eq_of_lt (by omega), if_pos h2]

theorem and_three (n : Nat) : n &&& 3 = n % 4 := Nat.and_pow_two_sub_one_eq_mod n 2

/-- With the rotated mask in place, the two loops of `_xor` leave the buffer masked
byte by byte and the tail loop has advanced `mask8` by `length mod 4`. -/
theorem loops_spec (e : Endian) (b : List Nat) (r0 r1 r2 r3 : Nat)
    (hb : IsBytes b) (hr : IsBytes [r0, r1, r2, r3]) (hlen : b.length < 2 ^ 33) :
    ∃ data1, wordLoop e [r0, r1, r2, r3] ((0 : Nat) + toInt32 (b.length >>> 2))
        (b.length + 1) b 0 = some (data1, b.length / 4) ∧
      byteLoop [r0, r1, r2, r3] b.length (b.length + 1) data1 (4 * (b.length / 4)) 0
        = some (maskBytes [r0, r1, r2, r3] 0 b, b.length % 4) := by
  have hw := wordLoop_spec e r0 r1 r2 r3 hr (b.length / 4) (b.length + 1) [] b 0 rfl
    (by omega) (by omega) hb
  rw [toInt32_shift _ hlen]
  simp only [List.nil_append, Nat.zero_add] at hw
  refine ⟨_, hw, ?_⟩
  have hpre : (maskBytes [r0, r1, r2, r3] 0 (List.take (4 * (b.length / 4)) b)).length
      = 4 * (b.length / 4) := by
    rw [maskBytes_length, List.length_take]; omega
  have hrest : (List.drop (4 * (b.length / 4)) b).length = b.length % 4 := by
    rw [List.length_drop]; omega
  have hbl := byteLoop_spec [r0, r1, r2, r3] hr (List.drop (4 * (b.length / 4)) b)
    (b.length + 1) (maskBytes [r0, r1, r2, r3] 0 (List.take (4 * (b.length / 4)) b)) 0
    (by omega) (by simp only [List.length_cons, List.length_nil]; omega) (by simp)
    (fun x hx => hb x (List.mem_of_mem_drop hx))
  rw [hpre, hrest] at hbl
  rw [show 4 * (b.length / 4) + b.length % 4 = b.length by omega] at hbl
  rw [hbl, Nat.zero_add]
  congr 2
  conv_rhs => rw [← List.take_append_drop (4 * (b.length / 4)) b]
  rw [maskBytes_append, List.length_take]
  congr 1
  apply maskBytes_congr
  have : min (4 * (b.length / 4)) b.length = 4 * (b.length / 4) := by omega
  rw [this]; omega

/-- Functional specification of `_xor` for a four-byte pattern. -/
theorem xor_spec (e : Endian) (b m : List Nat) (size p : Nat)
    (hb : IsBytes b) (hm : m.length = 4) (hmb : IsBytes m) (hlen : b.length < 2 ^ 33) :
    _xor e b m size p = some (maskBytes m p b, (p + b.length) % 4) := by
  obtain ⟨m0, m1, m2, m3, t, rfl⟩ := exists_four m (by omega)
  have ht : t = [] := by
    simp only [List.length_cons] at hm
    exact List.length_eq_zero.mp (by omega)
  subst ht
  have hk : p % 4 < 4 := Nat.mod_lt _ (by norm_num)
  obtain ⟨mask0, h1, h2⟩ := memcpy_rotate m0 m1 m2 m3 (p % 4) hk
  have hrb := rotated_isBytes m0 m1 m2 m3 (p % 4) hmb
  obtain ⟨r0, r1, r2, r3, t, hr⟩ := exists_four (rotated m0 m1 m2 m3 (p % 4))
    (by rw [rotated_length])
  have ht : t = [] := by
    have := rotated_length m0 m1 m2 m3 (p % 4)
    rw [hr] at this
    simp only [List.length_cons] at this
    exact List.length_eq_zero.mp (by omega)
  subst ht
  rw [hr] at h2 hrb
  obtain ⟨data1, hw, hbl⟩ := loops_spec e b r0 r1 r2 r3 hb hrb hlen
  simp only [_xor, and_three, h1, h2, hw, hbl]
  rw [← hr, maskBytes_rotated m0 m1 m2 m3 (p % 4) hk 0 b, Nat.add_zero,
    maskBytes_congr _ (p % 4) p (by omega)]
  congr 2
  omega

/-! ## The instrumented engine -/

theorem wordLoopTraced_erase (e : Endian) (mask : List Nat) (end32 : Int) :
    ∀ (fuel : Nat) (data : List Nat) (pos32 : Nat),
      (wordLoopTraced e mask end32 fuel data pos32).map (fun r => (r.1, r.2.1))
        = wordLoop e mask end32 fuel data pos32 := by
  intro fuel
  induction fuel with
  | zero => intro data pos32; rfl
  | succ f ih =>
    intro data pos32
    rw [wordLoopTraced, wordLoop]
    split_ifs with h
    · cases h1 : load32 e data (4 * pos32) with
      | none => simp
      | some w =>
        cases h2 : load32 e mask 0 with
        | none => simp
        | some mask32 =>
          cases h3 : store32 e data (4 * pos32) (w ^^^ mask32) with
          | none => simp [h3]
          | some data1 =>
            simp only [h3]
            rw [← ih data1 (pos32 + 1)]
            cases wordLoopTraced e mask end32 f data1 (pos32 + 1) <;> simp
    · simp

theorem byteLoopTraced_erase (mask : List Nat) (end8 : Nat) :
    ∀ (fuel : Nat) (data : List Nat) (pos8 mask8 : Nat),
      (byteLoopTraced mask end8 fuel data pos8 mask8).map (fun r => (r.1, r.2.1))
        = byteLoop mask end8 fuel data pos8 mask8 := by
  intro fuel
  induction fuel with
  | zero => intro data pos8 mask8; rfl
  | succ f ih =>
    intro data pos8 mask8
    rw [byteLoopTraced, byteLoop]
    split_ifs with h
    · cases h1 : data[pos8]? with
      | none => simp
      | some d =>
        cases h2 : mask[mask8]? with
        | none => simp
        | some m =>
          simp only []
          rw [← ih (data.set pos8 ((d ^^^ m) % 256)) (pos8 + 1) (mask8 + 1)]
          cases byteLoopTraced mask end8 f (data.set pos8 ((d ^^^ m) % 256)) (pos8 + 1)
            (mask8 + 1) <;> simp
    · simp

/-- Forgetting the trace gives `_xor`, on every input. -/
theorem xorTraced_erase (e : Endian) (buffer pattern : List Nat) (size maskOffset : Nat) :
    (_xorTraced e buffer pattern size maskOffset).map (fun r => (r.1, r.2.1))
      = _xor e buffer pattern size maskOffset := by
  simp only [_xorTraced, _xor]
  cases memcpy [0, 0, 0, 0] 0 pattern (maskOffset &&& 3) (4 - (maskOffset &&& 3)) with
  | none => simp
  | some mask0 =>
    simp only []
    cases (if maskOffset &&& 3 > 0 then
        memcpy mask0 (4 - (maskOffset &&& 3)) pattern 0 (maskOffset &&& 3)
      else some mask0) with
    | none => simp
    | some mask =>
      simp only []
      rw [← wordLoopTraced_erase]
      cases wordLoopTraced e mask (((0 : Nat) : Int) + toInt32 (buffer.length >>> 2))
          (buffer.length + 1) buffer 0 with
      | none => simp
      | some r =>
        obtain ⟨data1, pos32, t32⟩ := r
        simp only [Option.map_some']
        rw [← byteLoopTraced_erase]
        cases byteLoopTraced mask buffer.length (buffer.length + 1) data1 (4 * pos32) 0 with
        | none => simp
        | some r2 => simp

/-! ## Lemmas on the entry point -/

theorem bytesOfWord_isBytes (e : Endian) (w : Nat) : IsBytes (bytesOfWord e w) := by
  intro x hx
  cases e <;> simp only [bytesOfWord, List.mem_cons, List.mem_singleton, List.not_mem_nil,
    or_false] at hx <;> omega

theorem bytesOfWord_length (e : Endian) (w : Nat) : (bytesOfWord e w).length = 4 := by
  cases e <;> rfl

theorem utf8Value_isBytes (s : String) : IsBytes (Utf8Value s) := by
  intro x hx
  simp only [Utf8Value, List.mem_flatMap, List.mem_map] at hx
  obtain ⟨_, _, u, _, rfl⟩ := hx
  exact u.val.isLt

theorem int32Value_of_isInt32 (n : Int) (h : (Value.int n).IsInt32 = true) :
    (Value.int n).Int32Value = n := by
  simp only [Value.IsInt32, decide_eq_true_eq] at h
  simp only [Value.Int32Value]
  omega

theorem keyMask_length (e : Endian) (key : Value) (m : List Nat) (h : keyMask e key = some m) :
    m.length = 4 := by
  cases key with
  | int n =>
    simp only [keyMask] at h
    split at h
    · cases h; exact bytesOfWord_length e _
    · cases h
  | string s =>
    simp only [keyMask] at h
    split at h
    · cases h; assumption
    · cases h
  | buffer k =>
    simp only [keyMask] at h
    split at h
    · cases h; assumption
    · cases h
  | number => cases h
  | misc => cases h

/-- What the key dispatch does with a key it accepts. -/
theorem xorBufferKey_accept (e : Endian) (args : List Value) (b : List Nat) (off : Nat)
    (m : List Nat) (hkey : keyMask e (arg args 1) = some m) (hmb : IsBytes m)
    (hb : IsBytes b) (hlen : b.length < 2 ^ 33) :
    xorBufferKey e args b off
      = some (args.set 0 (Value.buffer (maskBytes m off b)),
          Completion.returned ((off + b.length) % 4)) := by
  have hm := keyMask_length e _ m hkey
  have hx := fun size => xor_spec e b m size off hb hm hmb hlen
  cases hk : arg args 1 with
  | int n =>
    rw [hk] at hkey
    simp only [keyMask] at hkey
    split at hkey
    · rename_i hr
      cases hkey
      have hi : (Value.int n).IsInt32 = true := by simp [Value.IsInt32, hr]
      have hv := int32Value_of_isInt32 n hi
      simp only [xorBufferKey, hk, hi, hv, if_true, _xorInt]
      rw [hx 4]; rfl
    · cases hkey
  | string s =>
    rw [hk] at hkey
    simp only [keyMask] at hkey
    split at hkey
    · rename_i hl
      cases hkey
      simp only [xorBufferKey, hk, Value.IsInt32, Value.IsString, Value.Utf8Value, hl]
      simp only [hx 4]
      rfl
    · cases hkey
  | buffer k =>
    rw [hk] at hkey
    simp only [keyMask] at hkey
    split at hkey
    · rename_i hl
      cases hkey
      simp only [xorBufferKey, hk, Value.IsInt32, Value.IsString, Buffer.HasInstance,
        Buffer.Data, hl]
      simp only [hx 4]
      rfl
    · cases hkey
  | number => rw [hk] at hkey; cases hkey
  | misc => rw [hk] at hkey; cases hkey

/-- With a buffer first and a well-formed phase, `xorBuffer` reaches the key
dispatch with `maskOffset = phaseOf rest`. -/
theorem xorBuffer_dispatch (e : Endian) (b : List Nat) (key : Value) (rest : List Value)
    (hrest : ValidPhase rest) :
    xorBuffer e (Value.buffer b :: key :: rest)
      = xorBufferKey e (Value.buffer b :: key :: rest) b (phaseOf rest) := by
  match rest, hrest with
  | [], _ => simp [xorBuffer, arg, Buffer.HasInstance, Buffer.Data, phaseOf]
  | [v], hv =>
    simp only [ValidPhase] at hv
    simp [xorBuffer, arg, Buffer.HasInstance, Buffer.Data, phaseOf, hv]

/-- A call with a buffer, an accepted key and a well-formed phase masks the buffer
and returns the next phase. -/
theorem xorBuffer_accept (e : Endian) (b : List Nat) (key : Value) (rest : List Value)
    (m : List Nat) (hkey : keyMask e key = some m) (hmb : IsBytes m)
    (hb : IsBytes b) (hlen : b.length < 2 ^ 33) (hrest : ValidPhase rest) :
    xorBuffer e (Value.buffer b :: key :: rest)
      = some (Value.buffer (maskBytes m (phaseOf rest) b) :: key :: rest,
          Completion.returned ((phaseOf rest + b.length) % 4)) := by
  rw [xorBuffer_dispatch e b key rest hrest,
    xorBufferKey_accept e _ b (phaseOf rest) m (by simpa [arg] using hkey) hmb hb hlen]
  rfl

theorem returnXor_ne_threw (args a : List Value) (r : Option (List Nat × Nat))
    (name : XorException) (msg : String) :
    returnXor args r ≠ some (a, Completion.threw name msg) := by
  intro h
  match r, h with
  | none, h => simp [returnXor] at h
  | some (d, q), h => simp [returnXor] at h

/-- The key dispatch throws only its two exceptions, and leaves the arguments as
they were when it does. -/
theorem xorBufferKey_threw (e : Endian) (args a : List Value) (b : List Nat) (off : Nat)
    (name : XorException) (msg : String)
    (h : xorBufferKey e args b off = some (a, Completion.threw name msg)) :
    a = args ∧ (name = XorException.illegalStringArgumentException ∨
      name = XorException.illegalArgumentException) := by
  simp only [xorBufferKey] at h
  split_ifs at h
  all_goals first
    | exact absurd h (returnXor_ne_threw _ _ _ _ _)
    | (simp only [throwException, Option.some.injEq, Prod.mk.injEq, Completion.threw.injEq] at h
       obtain ⟨h1, h2, _⟩ := h
       exact ⟨h1.symm, by simp [← h2]⟩)

theorem toSizeT_mod_four (p : Int) : toSizeT p % 4 = (p % 4).toNat := by
  simp only [toSizeT]
  omega

theorem mem_span (off n i : Nat) : i ∈ span off n ↔ off ≤ i ∧ i < off + n := by
  simp only [span, List.mem_map, List.mem_range]
  constructor
  · rintro ⟨j, hj, rfl⟩; omega
  · rintro ⟨h1, h2⟩; exact ⟨i - off, by omega, by omega⟩

theorem load32_some (e : Endian) (mem : List Nat) (off : Nat) (h : off + 4 ≤ mem.length) :
    ∃ w, load32 e mem off = some w := by
  simp [load32, readBytes, h]

theorem store32_some (e : Endian) (mem : List Nat) (off w : Nat) (h : off + 4 ≤ mem.length) :
    ∃ r, store32 e mem off w = some r ∧ r.length = mem.length := by
  have hl := bytesOfWord_length e (w % 4294967296)
  refine ⟨mem.take off ++ bytesOfWord e (w % 4294967296) ++ mem.drop (off + 4), ?_, ?_⟩
  · simp only [store32, writeBytes, hl, h, if_true]
  · simp only [List.length_append, List.length_take, List.length_drop, hl]
    omega

/-- The word loop runs once per whole word and stays inside the words it covers. -/
theorem wordLoopTraced_spec (e : Endian) (mask : List Nat) (hm : mask.length = 4) :
    ∀ (n fuel : Nat) (data : List Nat) (pos32 : Nat),
      n < fuel → 4 * (pos32 + n) ≤ data.length →
      ∃ d t, wordLoopTraced e mask ((pos32 : Int) + (n : Int)) fuel data pos32
          = some (d, pos32 + n, t) ∧
        d.length = data.length ∧ t.iterations = n ∧
        (∀ i ∈ t.dataIdx, i < 4 * (pos32 + n)) ∧ (∀ i ∈ t.maskIdx, i ≤ 3) := by
  intro n
  induction n with
  | zero =>
    intro fuel data pos32 hf _
    cases fuel with
    | zero => omega
    | succ f =>
      refine ⟨data, LoopTrace.mk 0 [] [], ?_, rfl, rfl, ?_, ?_⟩
      · simp [wordLoopTraced]
      · intro i hi; simp at hi
      · intro i hi; simp at hi
  | succ n ih =>
    intro fuel data pos32 hf hlen
    cases fuel with
    | zero => omega
    | succ f =>
      have hlt : (pos32 : Int) < (pos32 : Int) + ((n + 1 : Nat) : Int) := by omega
      obtain ⟨w, hw⟩ := load32_some e data (4 * pos32) (by omega)
      obtain ⟨mask32, hmk⟩ := load32_some e mask 0 (by omega)
      obtain ⟨d1, hs, hd1⟩ := store32_some e data (4 * pos32) (w ^^^ mask32) (by omega)
      obtain ⟨d, t, hrun, hdl, hit, hdi, hmi⟩ := ih f d1 (pos32 + 1) (by omega) (by omega)
      have hend : ((pos32 + 1 : Nat) : Int) + (n : Int) = (pos32 : Int) + ((n + 1 : Nat) : Int) := by
        omega
      rw [hend, show pos32 + 1 + n = pos32 + (n + 1) by omega] at hrun
      refine ⟨d, LoopTrace.mk (t.iterations + 1) (span (4 * pos32) 4 ++ t.dataIdx)
        (span 0 4 ++ t.maskIdx), ?_, by omega, by simp [hit], ?_, ?_⟩
      · rw [wordLoopTraced, if_pos hlt, hw, hmk]
        simp only [hs, hrun]
      · intro i hi
        rcases List.mem_append.mp hi with h | h
        · have := (mem_span _ _ _).mp h; omega
        · have := hdi i h; omega
      · intro i hi
        rcases List.mem_append.mp hi with h | h
        · have := (mem_span _ _ _).mp h; omega
        · exact hmi i h

/-- The tail loop runs once per remaining byte and advances `mask8` as often. -/
theorem byteLoopTraced_spec (mask : List Nat) :
    ∀ (k fuel : Nat) (data : List Nat) (pos8 mask8 : Nat),
      k < fuel → pos8 + k ≤ data.length → mask8 + k ≤ mask.length →
      ∃ d t, byteLoopTraced mask (pos8 + k) fuel data pos8 mask8 = some (d, mask8 + k, t) ∧
        d.length = data.length ∧ t.iterations = k ∧
        (∀ i ∈ t.dataIdx, i < pos8 + k) ∧ (∀ i ∈ t.maskIdx, i < mask8 + k) := by
  intro k
  induction k with
  | zero =>
    intro fuel data pos8 mask8 hf _ _
    cases fuel with
    | zero => omega
    | succ f =>
      refine ⟨data, LoopTrace.mk 0 [] [], ?_, rfl, rfl, ?_, ?_⟩
      · simp [byteLoopTraced]
      · intro i hi; simp at hi
      · intro i hi; simp at hi
  | succ k ih =>
    intro fuel data pos8 mask8 hf hlen hmk
    cases fuel with
    | zero => omega
    | succ f =>
      have hlt : pos8 < pos8 + (k + 1) := by omega
      have hd : data[pos8]? = some (data[pos8]) := List.getElem?_eq_getElem (by omega)
      have hmg : mask[mask8]? = some (mask[mask8]) := List.getElem?_eq_getElem (by omega)
      obtain ⟨d, t, hrun, hdl, hit, hdi, hmi⟩ :=
        ih f (data.set pos8 ((data[pos8] ^^^ mask[mask8]) % 256)) (pos8 + 1) (mask8 + 1)
          (by omega) (by rw [List.length_set]; omega) (by omega)
      rw [show pos8 + 1 + k = pos8 + (k + 1) by omega,
        show mask8 + 1 + k = mask8 + (k + 1) by omega] at hrun
      refine ⟨d, LoopTrace.mk (t.iterations + 1) (pos8 :: t.dataIdx) (mask8 :: t.maskIdx),
        ?_, by rw [hdl, List.length_set], by simp [hit], ?_, ?_⟩
      · rw [byteLoopTraced, if_pos hlt, hd, hmg]
        simp only [hrun]
      · intro i hi
        rcases List.mem_cons.mp hi with h | h
        · omega
        · have := hdi i h; omega
      · intro i hi
        rcases List.mem_cons.mp hi with h | h
        · omega
        · have := hmi i h; omega

/-- Bounds of one call of `_xor` on a buffer whose word count fits an `int`. -/
theorem xorTraced_spec (e : Endian) (b m : List Nat) (size p : Nat)
    (hlen : b.length / 4 < 2 ^ 31) (hm : m.length = 4) :
    ∃ out phase t, _xorTraced e b m size p = some (out, phase, t) ∧
      t.wordIterations = b.length / 4 ∧ t.byteIterations = b.length % 4 ∧
      (∀ i ∈ t.bufferIndices, i < b.length) ∧ (∀ i ∈ t.maskIndices, i ≤ 3) ∧
      (∀ i ∈ t.patternIndices, i ≤ 3) := by
  obtain ⟨m0, m1, m2, m3, t, rfl⟩ := exists_four m (by omega)
  have ht : t = [] := by
    simp only [List.length_cons] at hm
    exact List.length_eq_zero.mp (by omega)
  subst ht
  have hk : p % 4 < 4 := Nat.mod_lt _ (by norm_num)
  obtain ⟨mask0, h1, h2⟩ := memcpy_rotate m0 m1 m2 m3 (p % 4) hk
  have hrl := rotated_length m0 m1 m2 m3 (p % 4)
  have hl33 : b.length < 2 ^ 33 := by
    have e31 : (2 : Nat) ^ 31 = 2147483648 := by norm_num
    have e33 : (2 : Nat) ^ 33 = 8589934592 := by norm_num
    omega
  obtain ⟨d1, t32, hw, hd1, hit32, hdi32, hmi32⟩ :=
    wordLoopTraced_spec e (rotated m0 m1 m2 m3 (p % 4)) hrl (b.length / 4) (b.length + 1) b 0
      (by omega) (by omega)
  obtain ⟨d2, t8, hbl, _, hit8, hdi8, hmi8⟩ :=
    byteLoopTraced_spec (rotated m0 m1 m2 m3 (p % 4)) (b.length % 4) (b.length + 1) d1
      (4 * (b.length / 4)) 0 (by omega) (by omega) (by omega)
  rw [show 4 * (b.length / 4) + b.length % 4 = b.length by omega] at hbl
  rw [← toInt32_shift _ hl33] at hw
  simp only [Nat.zero_add] at hw
  refine ⟨d2, (0 + b.length % 4 + p % 4) % 4,
    Trace.mk t32.iterations t8.iterations (t32.dataIdx ++ t8.dataIdx)
      (span 0 (4 - p % 4) ++ (if p % 4 > 0 then span (4 - p % 4) (p % 4) else [])
        ++ t32.maskIdx ++ t8.maskIdx)
      (span (p % 4) (4 - p % 4) ++ (if p % 4 > 0 then span 0 (p % 4) else [])),
    ?_, hit32, hit8, ?_, ?_, ?_⟩
  · simp only [_xorTraced, and_three, h1, h2, hw, hbl]
  · intro i hi
    rcases List.mem_append.mp hi with h | h
    · have := hdi32 i h; omega
    · have := hdi8 i h; omega
  · intro i hi
    simp only [List.mem_append] at hi
    rcases hi with ((h | h) | h) | h
    · have := (mem_span _ _ _).mp h; omega
    · split_ifs at h
      · have := (mem_span _ _ _).mp h; omega
      · simp at h
    · exact hmi32 i h
    · have := hmi8 i h; omega
  · intro i hi
    rcases List.mem_append.mp hi with h | h
    · have := (mem_span _ _ _).mp h; omega
    · split_ifs at h
      · have := (mem_span _ _ _).mp h; omega
      · simp at h

/-! ## The naive loop of the specification -/

theorem naiveXor_eq_maskBytes (w b : List Nat) : naiveXor w b = maskBytes w 0 b := by
  apply List.ext_getElem
  · simp [naiveXor, maskBytes_length]
  · intro i h1 h2
    have hi : i < b.length := by simpa [naiveXor] using h1
    have hm := maskBytes_getD w 0 b i hi
    rw [List.getD_eq_getElem?_getD, List.getElem?_eq_getElem h2, Option.getD_some,
      Nat.zero_add] at hm
    rw [hm]
    simp [naiveXor]

theorem rotateMask_eq_rotated (m0 m1 m2 m3 p : Nat) :
    rotateMask [m0, m1, m2, m3] p = rotated m0 m1 m2 m3 (p % 4) := by
  have h : p % 4 = 0 ∨ p % 4 = 1 ∨ p % 4 = 2 ∨ p % 4 = 3 := by omega
  have hr : List.range 4 = [0, 1, 2, 3] := by decide
  rcases h with h | h | h | h <;>
    simp [rotateMask, hr, rotated, h, Nat.add_mod]

/-- The two loops with their intermediate buffer made explicit: after the word loop
the whole words are masked and the tail is untouched. -/
theorem loops_explicit (e : Endian) (b : List Nat) (r0 r1 r2 r3 : Nat)
    (hb : IsBytes b) (hr : IsBytes [r0, r1, r2, r3]) (hlen : b.length < 2 ^ 33) :
    wordLoop e [r0, r1, r2, r3] ((0 : Nat) + toInt32 (b.length >>> 2)) (b.length + 1) b 0
      = some (maskBytes [r0, r1, r2, r3] 0 (b.take (4 * (b.length / 4)))
          ++ b.drop (4 * (b.length / 4)), b.length / 4) ∧
    byteLoop [r0, r1, r2, r3] b.length (b.length + 1)
        (maskBytes [r0, r1, r2, r3] 0 (b.take (4 * (b.length / 4)))
          ++ b.drop (4 * (b.length / 4))) (4 * (b.length / 4)) 0
      = some (maskBytes [r0, r1, r2, r3] 0 b, b.length % 4) := by
  have hw := wordLoop_spec e r0 r1 r2 r3 hr (b.length / 4) (b.length + 1) [] b 0 rfl
    (by omega) (by omega) hb
  rw [toInt32_shift _ hlen]
  simp only [List.nil_append, Nat.zero_add] at hw
  refine ⟨hw, ?_⟩
  have hpre : (maskBytes [r0, r1, r2, r3] 0 (List.take (4 * (b.length / 4)) b)).length
      = 4 * (b.length / 4) := by
    rw [maskBytes_length, List.length_take]; omega
  have hrest : (List.drop (4 * (b.length / 4)) b).length = b.length % 4 := by
    rw [List.length_drop]; omega
  have hbl := byteLoop_spec [r0, r1, r2, r3] hr (List.drop (4 * (b.length / 4)) b)
    (b.length + 1) (maskBytes [r0, r1, r2, r3] 0 (List.take (4 * (b.length / 4)) b)) 0
    (by omega) (by simp only [List.length_cons, List.length_nil]; omega) (by simp)
    (fun x hx => hb x (List.mem_of_mem_drop hx))
  rw [hpre, hrest] at hbl
  rw [show 4 * (b.length / 4) + b.length % 4 = b.length by omega] at hbl
  rw [hbl, Nat.zero_add]
  congr 2
  conv_rhs => rw [← List.take_append_drop (4 * (b.length / 4)) b]
  rw [maskBytes_append, List.length_take]
  congr 1
  apply maskBytes_congr
  have : min (4 * (b.length / 4)) b.length = 4 * (b.length / 4) := by omega
  rw [this]; omega

/-! ## The order of the checks -/

/-- The key dispatch throws the exception of the key check, and throws nothing when
that check passes. -/
theorem xorBufferKey_keyCheck (e : Endian) (args : List Value) (b : List Nat) (off : Nat)
    (name : XorException) :
    (∃ args1 msg, xorBufferKey e args b off = some (args1, Completion.threw name msg))
      ↔ keyCheck args = some name := by
  constructor
  · rintro ⟨args1, msg, h⟩
    simp only [xorBufferKey] at h
    simp only [keyCheck]
    split_ifs at h ⊢ <;>
      first
        | exact absurd h (returnXor_ne_threw _ _ _ _ _)
        | (simp only [throwException, Option.some.injEq, Prod.mk.injEq,
            Completion.threw.injEq] at h
           rw [h.2.1])
        | omega
  · intro h
    simp only [keyCheck] at h
    simp only [xorBufferKey, throwException]
    split_ifs at h ⊢ <;>
      first
        | (cases h; exact ⟨_, _, rfl⟩)
        | omega

theorem threw_iff (args : List Value) (thrown name : XorException) (msg0 : String) :
    (∃ args1 msg, (some (args, Completion.threw thrown msg0) : Option (List Value × Completion))
        = some (args1, Completion.threw name msg))
      ↔ some thrown = some name := by
  constructor
  · rintro ⟨_, _, h⟩
    simp only [Option.some.injEq, Prod.mk.injEq, Completion.threw.injEq] at h
    rw [h.2.1]
  · intro h
    cases h
    exact ⟨_, _, rfl⟩

/-- A call of `xorBuffer` throws exactly the exception of the first failing check. -/
theorem xorBuffer_firstError (e : Endian) (args : List Value) (name : XorException) :
    (∃ args1 msg, xorBuffer e args = some (args1, Completion.threw name msg))
      ↔ firstError args = some name := by
  by_cases h1 : args.length < 2
  · have hx : xorBuffer e args = some (args, Completion.threw
        XorException.illegalArgumentCountException "Expected 2 arguments") := by
      simp [xorBuffer, h1, throwException]
    have hf : firstError args = some XorException.illegalArgumentCountException := by
      simp [firstError, countCheck, List.findSome?, h1]
    rw [hx, hf]
    exact threw_iff _ _ _ _
  · by_cases h2 : Buffer.HasInstance (arg args 0) = true
    · by_cases h3 : args.length = 3
      · by_cases h4 : (arg args 2).IsInt32 = true
        · have hf : firstError args = keyCheck args := by
            simp only [firstError, countCheck, bufferCheck, phaseCheck, List.findSome?, h1, h2,
              h4, if_true, if_false, id]
            simp
            cases keyCheck args <;> rfl
          have hx : xorBuffer e args = xorBufferKey e args (Buffer.Data (arg args 0))
              (toSizeT (arg args 2).Int32Value) := by
            simp [xorBuffer, h1, h2, h3, h4]
          rw [hf, hx]
          exact xorBufferKey_keyCheck e args _ _ name
        · have h4f : (arg args 2).IsInt32 = false := by simpa using h4
          have hx : xorBuffer e args = some (args, Completion.threw
              XorException.illegalThirdArgumentException
              "Third argument must be a number") := by
            simp [xorBuffer, h1, h2, h3, h4f, throwException]
          have hf : firstError args = some XorException.illegalThirdArgumentException := by
            simp [firstError, countCheck, bufferCheck, phaseCheck, List.findSome?, h1, h2, h3,
              h4f]
          rw [hx, hf]
          exact threw_iff _ _ _ _
      · have hf : firstError args = keyCheck args := by
          simp only [firstError, countCheck, bufferCheck, phaseCheck, List.findSome?, h1, h2,
            h3, if_true, if_false, id, false_and]
          cases keyCheck args <;> rfl
        have hx : xorBuffer e args = xorBufferKey e args (Buffer.Data (arg args 0)) 0 := by
          simp [xorBuffer, h1, h2, h3]
        rw [hf, hx]
        exact xorBufferKey_keyCheck e args _ _ name
    · have h2f : Buffer.HasInstance (arg args 0) = false := by simpa using h2
      have hx : xorBuffer e args = some (args, Completion.threw
          XorException.illegalFirstArgumentException "First argument must be a Buffer") := by
        simp [xorBuffer, h1, h2f, throwException]
      have hf : firstError args = some XorException.illegalFirstArgumentException := by
        simp [firstError, countCheck, bufferCheck, List.findSome?, h1, h2f]
      rw [hx, hf]
      exact threw_iff _ _ _ _

/-! ## Claims on the engine -/

/-- C1. For every buffer (a byte list shorter than 2^33, which every node Buffer is),
every 4-byte mask and every starting phase, `_xor` returns a buffer of the same
length in which byte `i` is `b[i] XOR m[(p + i) mod 4]`, on either byte order. -/
theorem xor_bytewise (e : Endian) (b m : List Nat) (p : Nat)
    (hb : IsBytes b) (hlen : b.length < 2 ^ 33) (hm : m.length = 4) (hmb : IsBytes m) :
    ∃ out phase, _xor e b m 4 p = some (out, phase) ∧ out.length = b.length ∧
      ∀ i, i < b.length → out.getD i 0 = b.getD i 0 ^^^ m.getD ((p + i) % 4) 0 :=
  ⟨maskBytes m p b, (p + b.length) % 4, xor_spec e b m 4 p hb hm hmb hlen,
    maskBytes_length m p b, fun i hi => maskBytes_getD m p b i hi⟩

/-- Witness of C1: the scenario of the specification, buffer `[0,0,0,0,0]`, mask
`[1,2,3,4]`, phase 0, which gives `[1,2,3,4,1]`. -/
theorem xor_bytewise_witness :
    (IsBytes [0, 0, 0, 0, 0] ∧ [0, 0, 0, 0, 0].length < 2 ^ 33 ∧ [1, 2, 3, 4].length = 4 ∧
      IsBytes [1, 2, 3, 4]) ∧
    (∃ out phase, _xor Endian.little [0, 0, 0, 0, 0] [1, 2, 3, 4] 4 0 = some (out, phase) ∧
      out.length = [0, 0, 0, 0, 0].length ∧
      ∀ i, i < [0, 0, 0, 0, 0].length →
        out.getD i 0 = [0, 0, 0, 0, 0].getD i 0 ^^^ [1, 2, 3, 4].getD ((0 + i) % 4) 0) ∧
    _xor Endian.little [0, 0, 0, 0, 0] [1, 2, 3, 4] 4 0 = some ([1, 2, 3, 4, 1], 1) ∧
    _xor Endian.big [0, 0, 0, 0, 0] [1, 2, 3, 4] 4 0 = some ([1, 2, 3, 4, 1], 1) :=
  ⟨⟨by decide, by decide, rfl, by decide⟩,
    xor_bytewise Endian.little [0, 0, 0, 0, 0] [1, 2, 3, 4] 0 (by decide) (by decide) rfl
      (by decide),
    by decide, by decide⟩

/-- C2. The phase returned by `_xor` is `(p + len(b)) mod 4`; it lies in `[0,4)` and is
the same for any other buffer `b1` of that length and any other 4-byte mask `m1`. -/
theorem xor_phase (e : Endian) (b m b1 m1 : List Nat) (p : Nat)
    (hb : IsBytes b) (hlen : b.length < 2 ^ 33) (hm : m.length = 4) (hmb : IsBytes m)
    (hb1 : IsBytes b1) (hl1 : b1.length = b.length) (hm1 : m1.length = 4) (hmb1 : IsBytes m1) :
    (_xor e b m 4 p).map Prod.snd = some ((p + b.length) % 4) ∧
    (p + b.length) % 4 < 4 ∧
    (_xor e b1 m1 4 p).map Prod.snd = (_xor e b m 4 p).map Prod.snd := by
  refine ⟨?_, Nat.mod_lt _ (by norm_num), ?_⟩
  · rw [xor_spec e b m 4 p hb hm hmb hlen]; rfl
  · rw [xor_spec e b m 4 p hb hm hmb hlen, xor_spec e b1 m1 4 p hb1 hm1 hmb1 (hl1 ▸ hlen), hl1]
    rfl

/-- Witness of C2: two 11-byte buffers with different bytes and masks, at phase 3,
both return phase 2. -/
theorem xor_phase_witness :
    (IsBytes [0, 0, 0, 0, 0, 7, 8, 9, 10, 11, 12] ∧
      [0, 0, 0, 0, 0, 7, 8, 9, 10, 11, 12].length < 2 ^ 33 ∧ [1, 2, 3, 4].length = 4 ∧
      IsBytes [1, 2, 3, 4] ∧ IsBytes [9, 9, 9, 9, 9, 9, 9, 9, 9, 9, 9] ∧
      [9, 9, 9, 9, 9, 9, 9, 9, 9, 9, 9].length = [0, 0, 0, 0, 0, 7, 8, 9, 10, 11, 12].length ∧
      [255, 0, 255, 0].length = 4 ∧ IsBytes [255, 0, 255, 0]) ∧
    ((_xor Endian.big [0, 0, 0, 0, 0, 7, 8, 9, 10, 11, 12] [1, 2, 3, 4] 4 3).map Prod.snd
        = some ((3 + [0, 0, 0, 0, 0, 7, 8, 9, 10, 11, 12].length) % 4) ∧
      (3 + [0, 0, 0, 0, 0, 7, 8, 9, 10, 11, 12].length) % 4 < 4 ∧
      (_xor Endian.big [9, 9, 9, 9, 9, 9, 9, 9, 9, 9, 9] [255, 0, 255, 0] 4 3).map Prod.snd
        = (_xor Endian.big [0, 0, 0, 0, 0, 7, 8, 9, 10, 11, 12] [1, 2, 3, 4] 4 3).map
            Prod.snd) :=
  ⟨⟨by decide, by decide, rfl, by decide, by decide, rfl, rfl, by decide⟩,
    xor_phase Endian.big [0, 0, 0, 0, 0, 7, 8, 9, 10, 11, 12] [1, 2, 3, 4]
      [9, 9, 9, 9, 9, 9, 9, 9, 9, 9, 9] [255, 0, 255, 0] 3 (by decide) (by decide) rfl
      (by decide) (by decide) rfl rfl (by decide)⟩

/-- C3. Involution: masking a buffer and masking the result again, with the same
4-byte mask and the same starting phase, gives back the original bytes. -/
theorem xor_involution (e : Endian) (b m : List Nat) (p : Nat)
    (hb : IsBytes b) (hlen : b.length < 2 ^ 33) (hm : m.length = 4) (hmb : IsBytes m) :
    ∃ out phase, _xor e b m 4 p = some (out, phase) ∧ _xor e out m 4 p = some (b, phase) := by
  refine ⟨maskBytes m p b, (p + b.length) % 4, xor_spec e b m 4 p hb hm hmb hlen, ?_⟩
  rw [xor_spec e (maskBytes m p b) m 4 p (maskBytes_isBytes m p b hmb hb) hm hmb
    (by rw [maskBytes_length]; exact hlen), maskBytes_involutive, maskBytes_length]

/-- Witness of C3: a 6-byte buffer masked twice at phase 2. -/
theorem xor_involution_witness :
    (IsBytes [10, 200, 30, 255, 0, 77] ∧ [10, 200, 30, 255, 0, 77].length < 2 ^ 33 ∧
      [1, 2, 3, 4].length = 4 ∧ IsBytes [1, 2, 3, 4]) ∧
    ∃ out phase, _xor Endian.little [10, 200, 30, 255, 0, 77] [1, 2, 3, 4] 4 2
        = some (out, phase) ∧
      _xor Endian.little out [1, 2, 3, 4] 4 2 = some ([10, 200, 30, 255, 0, 77], phase) :=
  ⟨⟨by decide, by decide, rfl, by decide⟩,
    xor_involution Endian.little [10, 200, 30, 255, 0, 77] [1, 2, 3, 4] 2 (by decide)
      (by decide) rfl (by decide)⟩

/-- C4. Phase continuity: masking `b1` at phase `p`, then `b2` at the phase returned,
gives the bytes and the final phase of masking `b1 ++ b2` in one call at phase `p`,
whatever the two lengths are. -/
theorem xor_continuity (e : Endian) (b1 b2 m : List Nat) (p : Nat)
    (hb1 : IsBytes b1) (hb2 : IsBytes b2) (hlen : (b1 ++ b2).length < 2 ^ 33)
    (hm : m.length = 4) (hmb : IsBytes m) :
    ∃ out1 p2 out2 p3, _xor e b1 m 4 p = some (out1, p2) ∧
      _xor e b2 m 4 p2 = some (out2, p3) ∧
      _xor e (b1 ++ b2) m 4 p = some (out1 ++ out2, p3) := by
  have hl : b1.length + b2.length < 2 ^ 33 := by simpa using hlen
  have hb12 : IsBytes (b1 ++ b2) := by
    intro x hx
    rcases List.mem_append.mp hx with h | h
    · exact hb1 x h
    · exact hb2 x h
  refine ⟨maskBytes m p b1, (p + b1.length) % 4, maskBytes m ((p + b1.length) % 4) b2,
    ((p + b1.length) % 4 + b2.length) % 4,
    xor_spec e b1 m 4 p hb1 hm hmb (by omega),
    xor_spec e b2 m 4 _ hb2 hm hmb (by omega), ?_⟩
  rw [xor_spec e (b1 ++ b2) m 4 p hb12 hm hmb hlen, maskBytes_append,
    maskBytes_congr m ((p + b1.length) % 4) (p + b1.length) (by omega), List.length_append]
  congr 2
  omega

/-- Witness of C4: the scenario of the specification, `[0,0,0,0,0]` at phase 0
returns phase 1, then `[0]` at phase 1 gives `[2]`, mask `[1,2,3,4]`. -/
theorem xor_continuity_witness :
    (IsBytes [0, 0, 0, 0, 0] ∧ IsBytes [0] ∧ ([0, 0, 0, 0, 0] ++ [0]).length < 2 ^ 33 ∧
      [1, 2, 3, 4].length = 4 ∧ IsBytes [1, 2, 3, 4]) ∧
    (∃ out1 p2 out2 p3, _xor Endian.little [0, 0, 0, 0, 0] [1, 2, 3, 4] 4 0 = some (out1, p2) ∧
      _xor Endian.little [0] [1, 2, 3, 4] 4 p2 = some (out2, p3) ∧
      _xor Endian.little ([0, 0, 0, 0, 0] ++ [0]) [1, 2, 3, 4] 4 0
        = some (out1 ++ out2, p3)) ∧
    _xor Endian.little [0, 0, 0, 0, 0] [1, 2, 3, 4] 4 0 = some ([1, 2, 3, 4, 1], 1) ∧
    _xor Endian.little [0] [1, 2, 3, 4] 4 1 = some ([2], 2) ∧
    _xor Endian.little [0, 0, 0, 0, 0, 0] [1, 2, 3, 4] 4 0 = some ([1, 2, 3, 4, 1, 2], 2) :=
  ⟨⟨by decide, by decide, by decide, rfl, by decide⟩,
    xor_continuity Endian.little [0, 0, 0, 0, 0] [0] [1, 2, 3, 4] 0 (by decide) (by decide)
      (by decide) rfl (by decide),
    by decide, by decide, by decide⟩

/-! ## Claims on the entry point -/

/-- C5. Atomicity on error: whenever a call of `xorBuffer` throws, whichever of its
exceptions it is, every argument (the buffer passed first among them) is left as it
was; the checks all come before the call of `_xor`, the only step that writes. -/
theorem xorBuffer_atomic (e : Endian) (args args1 : List Value) (name : XorException)
    (msg : String) (h : xorBuffer e args = some (args1, Completion.threw name msg)) :
    args1 = args := by
  simp only [xorBuffer] at h
  split_ifs at h
  all_goals first
    | exact (xorBufferKey_threw e _ _ _ _ _ _ h).1
    | (simp only [throwException, Option.some.injEq, Prod.mk.injEq] at h
       exact h.1.symm)

/-- Witness of C5: a call with a 3-byte text key throws and leaves the buffer alone. -/
theorem xorBuffer_atomic_witness :
    xorBuffer Endian.little [Value.buffer [1, 2, 3], Value.string "abc"]
      = some ([Value.buffer [1, 2, 3], Value.string "abc"],
          Completion.threw XorException.illegalStringArgumentException
            "Second argument must be a 4 character string") ∧
    [Value.buffer [1, 2, 3], Value.string "abc"] = [Value.buffer [1, 2, 3], Value.string "abc"] :=
  ⟨by decide,
    xorBuffer_atomic Endian.little [Value.buffer [1, 2, 3], Value.string "abc"]
      [Value.buffer [1, 2, 3], Value.string "abc"] XorException.illegalStringArgumentException
      "Second argument must be a 4 character string" (by decide)⟩

/-- C6. Mask-length validation: with a buffer first and a well-formed or absent
phase, a text key is accepted exactly when its UTF-8 encoding has 4 bytes and a
buffer key exactly when its length is 4; any other text or buffer key makes the
call throw `illegalStringArgumentException` (the specification's
`InvalidMaskLength`). -/
theorem key_length_validation (e : Endian) (b : List Nat) (rest : List Value) (s : String)
    (k : List Nat) (hb : IsBytes b) (hlen : b.length < 2 ^ 33) (hrest : ValidPhase rest)
    (hk : IsBytes k) :
    ((Accepted (xorBuffer e (Value.buffer b :: Value.string s :: rest))
        ↔ (Utf8Value s).length = 4) ∧
      ((Utf8Value s).length ≠ 4 →
        xorBuffer e (Value.buffer b :: Value.string s :: rest)
          = some (Value.buffer b :: Value.string s :: rest,
              Completion.threw XorException.illegalStringArgumentException
                "Second argument must be a 4 character string"))) ∧
    ((Accepted (xorBuffer e (Value.buffer b :: Value.buffer k :: rest)) ↔ k.length = 4) ∧
      (k.length ≠ 4 →
        xorBuffer e (Value.buffer b :: Value.buffer k :: rest)
          = some (Value.buffer b :: Value.buffer k :: rest,
              Completion.threw XorException.illegalStringArgumentException
                "Second argument must be a 4 bytes Buffer"))) := by
  have hs : (Utf8Value s).length ≠ 4 →
      xorBuffer e (Value.buffer b :: Value.string s :: rest)
        = some (Value.buffer b :: Value.string s :: rest,
            Completion.threw XorException.illegalStringArgumentException
              "Second argument must be a 4 character string") := by
    intro h
    rw [xorBuffer_dispatch e b _ rest hrest]
    simp [xorBufferKey, arg, Value.IsInt32, Value.IsString, Value.Utf8Value, h, throwException]
  have hbuf : k.length ≠ 4 →
      xorBuffer e (Value.buffer b :: Value.buffer k :: rest)
        = some (Value.buffer b :: Value.buffer k :: rest,
            Completion.threw XorException.illegalStringArgumentException
              "Second argument must be a 4 bytes Buffer") := by
    intro h
    rw [xorBuffer_dispatch e b _ rest hrest]
    simp [xorBufferKey, arg, Value.IsInt32, Value.IsString, Buffer.HasInstance, Buffer.Data, h,
      throwException]
  refine ⟨⟨⟨?_, ?_⟩, hs⟩, ⟨⟨?_, ?_⟩, hbuf⟩⟩
  · intro hacc
    by_contra h
    obtain ⟨a, q, hq⟩ := hacc
    rw [hs h] at hq
    simp at hq
  · intro h
    exact ⟨_, _, xorBuffer_accept e b (Value.string s) rest (Utf8Value s) (by simp [keyMask, h])
      (utf8Value_isBytes s) hb hlen hrest⟩
  · intro hacc
    by_contra h
    obtain ⟨a, q, hq⟩ := hacc
    rw [hbuf h] at hq
    simp at hq
  · intro h
    exact ⟨_, _, xorBuffer_accept e b (Value.buffer k) rest k (by simp [keyMask, h])
      hk hb hlen hrest⟩

/-- Witness of C6: a 3-character text key and a 5-byte buffer key, no phase. -/
theorem key_length_validation_witness :
    (IsBytes [0, 0, 0, 0, 0] ∧ [0, 0, 0, 0, 0].length < 2 ^ 33 ∧ ValidPhase [] ∧
      IsBytes [1, 2, 3, 4, 5]) ∧
    (((Accepted (xorBuffer Endian.little [Value.buffer [0, 0, 0, 0, 0], Value.string "abc"])
        ↔ (Utf8Value "abc").length = 4) ∧
      ((Utf8Value "abc").length ≠ 4 →
        xorBuffer Endian.little [Value.buffer [0, 0, 0, 0, 0], Value.string "abc"]
          = some ([Value.buffer [0, 0, 0, 0, 0], Value.string "abc"],
              Completion.threw XorException.illegalStringArgumentException
                "Second argument must be a 4 character string"))) ∧
    ((Accepted (xorBuffer Endian.little
          [Value.buffer [0, 0, 0, 0, 0], Value.buffer [1, 2, 3, 4, 5]])
        ↔ [1, 2, 3, 4, 5].length = 4) ∧
      ([1, 2, 3, 4, 5].length ≠ 4 →
        xorBuffer Endian.little [Value.buffer [0, 0, 0, 0, 0], Value.buffer [1, 2, 3, 4, 5]]
          = some ([Value.buffer [0, 0, 0, 0, 0], Value.buffer [1, 2, 3, 4, 5]],
              Completion.threw XorException.illegalStringArgumentException
                "Second argument must be a 4 bytes Buffer")))) :=
  ⟨⟨by decide, by decide, trivial, by decide⟩,
    key_length_validation Endian.little [0, 0, 0, 0, 0] [] "abc" [1, 2, 3, 4, 5] (by decide)
      (by decide) trivial (by decide)⟩

/-- C7, counterexample. The integer key 2^31 lies in the unsigned 32-bit range, yet the
call is not accepted: `IsInt32` fails and the call throws `illegalArgumentException`,
while the buffer key holding the four bytes of 2^31 is accepted. -/
theorem int_key_unsigned_rejected :
    ((-2147483648 : Int) ≤ 2147483648 ∧ (2147483648 : Int) ≤ 4294967295) ∧
    xorBuffer Endian.little [Value.buffer [0, 0, 0, 0], Value.int 2147483648]
      = some ([Value.buffer [0, 0, 0, 0], Value.int 2147483648],
          Completion.threw XorException.illegalArgumentException
            "Second argument should be either a string, a buffer or an integer.") ∧
    ¬ Accepted (xorBuffer Endian.little [Value.buffer [0, 0, 0, 0], Value.int 2147483648]) ∧
    bytesOfWord Endian.little (2147483648 % 4294967296 : Int).toNat = [0, 0, 0, 128] ∧
    xorBuffer Endian.little [Value.buffer [0, 0, 0, 0], Value.buffer [0, 0, 0, 128]]
      = some ([Value.buffer [0, 0, 0, 128], Value.buffer [0, 0, 0, 128]],
          Completion.returned 0) := by
  have h : xorBuffer Endian.little [Value.buffer [0, 0, 0, 0], Value.int 2147483648]
      = some ([Value.buffer [0, 0, 0, 0], Value.int 2147483648],
          Completion.threw XorException.illegalArgumentException
            "Second argument should be either a string, a buffer or an integer.") := by
    decide
  refine ⟨by decide, h, ?_, by decide, by decide⟩
  rintro ⟨a, q, hq⟩
  rw [h] at hq
  simp at hq

/-- C7, amended. For every integer key `k` in the signed 32-bit range, the call is
accepted and gives the output bytes and the returned phase of the call whose key is
the 4-byte buffer holding the two's complement representation of `k` in the platform
byte order, for every buffer and every well-formed or absent phase; an integer key
outside that range makes the call throw `illegalArgumentException`. -/
theorem int_key_as_buffer (e : Endian) (b : List Nat) (k : Int) (rest : List Value)
    (hb : IsBytes b) (hlen : b.length < 2 ^ 33) (hrest : ValidPhase rest) :
    ((-2147483648 ≤ k ∧ k ≤ 2147483647) →
      ∃ out phase,
        xorBuffer e (Value.buffer b :: Value.int k :: rest)
          = some (Value.buffer out :: Value.int k :: rest, Completion.returned phase) ∧
        xorBuffer e
            (Value.buffer b :: Value.buffer (bytesOfWord e (k % 4294967296).toNat) :: rest)
          = some (Value.buffer out :: Value.buffer (bytesOfWord e (k % 4294967296).toNat) :: rest,
              Completion.returned phase)) ∧
    (¬ (-2147483648 ≤ k ∧ k ≤ 2147483647) →
      xorBuffer e (Value.buffer b :: Value.int k :: rest)
        = some (Value.buffer b :: Value.int k :: rest,
            Completion.threw XorException.illegalArgumentException
              "Second argument should be either a string, a buffer or an integer.")) := by
  constructor
  · intro hk
    exact ⟨_, _,
      xorBuffer_accept e b (Value.int k) rest (bytesOfWord e (k % 4294967296).toNat)
        (by simp [keyMask, hk]) (bytesOfWord_isBytes e _) hb hlen hrest,
      xorBuffer_accept e b (Value.buffer _) rest (bytesOfWord e (k % 4294967296).toNat)
        (by simp [keyMask, bytesOfWord_length]) (bytesOfWord_isBytes e _) hb hlen hrest⟩
  · intro hk
    rw [xorBuffer_dispatch e b _ rest hrest]
    simp [xorBufferKey, arg, Value.IsInt32, Value.IsString, Buffer.HasInstance, hk,
      throwException]

/-- Witness of C7 (amended): the key `-2` on a big-endian platform, phase 5. -/
theorem int_key_as_buffer_witness :
    (IsBytes [0, 0, 0, 0, 0, 0] ∧ [0, 0, 0, 0, 0, 0].length < 2 ^ 33 ∧
      ValidPhase [Value.int 5] ∧ ((-2147483648 : Int) ≤ -2 ∧ (-2 : Int) ≤ 2147483647)) ∧
    ∃ out phase,
      xorBuffer Endian.big [Value.buffer [0, 0, 0, 0, 0, 0], Value.int (-2), Value.int 5]
        = some ([Value.buffer out, Value.int (-2), Value.int 5], Completion.returned phase) ∧
      xorBuffer Endian.big [Value.buffer [0, 0, 0, 0, 0, 0],
          Value.buffer (bytesOfWord Endian.big ((-2 : Int) % 4294967296).toNat), Value.int 5]
        = some ([Value.buffer out,
            Value.buffer (bytesOfWord Endian.big ((-2 : Int) % 4294967296).toNat), Value.int 5],
            Completion.returned phase) :=
  ⟨⟨by decide, by decide, by decide, by decide⟩,
    (int_key_as_buffer Endian.big [0, 0, 0, 0, 0, 0] (-2) [Value.int 5] (by decide) (by decide)
      (by decide)).1 (by decide)⟩

/-- C8. Key acceptance equivalence: a text key whose UTF-8 encoding is the four bytes
`k0..k3` (a 4-character key of one byte per character in particular) and the buffer
key `[k0,k1,k2,k3]` give the same output bytes and the same returned phase, for every
buffer and every well-formed or absent phase. -/
theorem text_key_as_buffer (e : Endian) (b : List Nat) (s : String) (k0 k1 k2 k3 : Nat)
    (rest : List Value) (hb : IsBytes b) (hlen : b.length < 2 ^ 33)
    (hs : Utf8Value s = [k0, k1, k2, k3]) (hrest : ValidPhase rest) :
    ∃ out phase,
      xorBuffer e (Value.buffer b :: Value.string s :: rest)
        = some (Value.buffer out :: Value.string s :: rest, Completion.returned phase) ∧
      xorBuffer e (Value.buffer b :: Value.buffer [k0, k1, k2, k3] :: rest)
        = some (Value.buffer out :: Value.buffer [k0, k1, k2, k3] :: rest,
            Completion.returned phase) := by
  have hk : IsBytes [k0, k1, k2, k3] := hs ▸ utf8Value_isBytes s
  exact ⟨_, _,
    xorBuffer_accept e b (Value.string s) rest [k0, k1, k2, k3] (by simp [keyMask, hs])
      hk hb hlen hrest,
    xorBuffer_accept e b (Value.buffer [k0, k1, k2, k3]) rest [k0, k1, k2, k3]
      (by simp [keyMask]) hk hb hlen hrest⟩

/-- Witness of C8: the text key "abcd" and the buffer key `[97,98,99,100]`, phase 1. -/
theorem text_key_as_buffer_witness :
    (IsBytes [0, 1, 2, 3, 4, 5] ∧ [0, 1, 2, 3, 4, 5].length < 2 ^ 33 ∧
      Utf8Value "abcd" = [97, 98, 99, 100] ∧ ValidPhase [Value.int 1]) ∧
    ∃ out phase,
      xorBuffer Endian.little [Value.buffer [0, 1, 2, 3, 4, 5], Value.string "abcd", Value.int 1]
        = some ([Value.buffer out, Value.string "abcd", Value.int 1],
            Completion.returned phase) ∧
      xorBuffer Endian.little
          [Value.buffer [0, 1, 2, 3, 4, 5], Value.buffer [97, 98, 99, 100], Value.int 1]
        = some ([Value.buffer out, Value.buffer [97, 98, 99, 100], Value.int 1],
            Completion.returned phase) :=
  ⟨⟨by decide, by decide, by decide, by decide⟩,
    text_key_as_buffer Endian.little [0, 1, 2, 3, 4, 5] "abcd" 97 98 99 100 [Value.int 1]
      (by decide) (by decide) (by decide) (by decide)⟩

/-- C9, counterexample. The phase 2^32 is an integer whose reduction modulo 4 is 0, yet
the call throws `illegalThirdArgumentException` where the call with phase 0 masks
the buffer and returns phase 1. -/
theorem phase_outside_int32_rejected :
    xorBuffer Endian.little [Value.buffer [0], Value.buffer [1, 2, 3, 4], Value.int 4294967296]
      = some ([Value.buffer [0], Value.buffer [1, 2, 3, 4], Value.int 4294967296],
          Completion.threw XorException.illegalThirdArgumentException
            "Third argument must be a number") ∧
    ¬ Accepted (xorBuffer Endian.little
      [Value.buffer [0], Value.buffer [1, 2, 3, 4], Value.int 4294967296]) ∧
    (4294967296 : Int) % 4 = 0 ∧
    xorBuffer Endian.little [Value.buffer [0], Value.buffer [1, 2, 3, 4], Value.int 0]
      = some ([Value.buffer [1], Value.buffer [1, 2, 3, 4], Value.int 0],
          Completion.returned 1) := by
  have h : xorBuffer Endian.little
        [Value.buffer [0], Value.buffer [1, 2, 3, 4], Value.int 4294967296]
      = some ([Value.buffer [0], Value.buffer [1, 2, 3, 4], Value.int 4294967296],
          Completion.threw XorException.illegalThirdArgumentException
            "Third argument must be a number") := by
    decide
  refine ⟨h, ?_, by decide, by decide⟩
  rintro ⟨a, q, hq⟩
  rw [h] at hq
  simp at hq

/-- C9, amended. For every integer phase `p` in the signed 32-bit range (negative values
and values of 4 or more included) and every accepted key, the call succeeds and
gives the output bytes and the returned phase of the call with the phase `p mod 4`,
which lies in `[0,4)`; an integer phase outside that range makes the call throw
`illegalThirdArgumentException`. -/
theorem phase_reduction (e : Endian) (b : List Nat) (key : Value) (m : List Nat) (p : Int)
    (hb : IsBytes b) (hlen : b.length < 2 ^ 33)
    (hkey : keyMask e key = some m) (hmb : IsBytes m) :
    ((-2147483648 ≤ p ∧ p ≤ 2147483647) →
      (0 ≤ p % 4 ∧ p % 4 < 4) ∧
      ∃ out phase,
        xorBuffer e [Value.buffer b, key, Value.int p]
          = some ([Value.buffer out, key, Value.int p], Completion.returned phase) ∧
        xorBuffer e [Value.buffer b, key, Value.int (p % 4)]
          = some ([Value.buffer out, key, Value.int (p % 4)], Completion.returned phase)) ∧
    (¬ (-2147483648 ≤ p ∧ p ≤ 2147483647) →
      xorBuffer e [Value.buffer b, key, Value.int p]
        = some ([Value.buffer b, key, Value.int p],
            Completion.threw XorException.illegalThirdArgumentException
              "Third argument must be a number")) := by
  constructor
  · intro hp
    have hv1 : ValidPhase [Value.int p] := by simp [ValidPhase, Value.IsInt32, hp]
    have hi2 : (Value.int (p % 4)).IsInt32 = true := by
      simp only [Value.IsInt32, decide_eq_true_eq]; omega
    have hv2 : ValidPhase [Value.int (p % 4)] := hi2
    have h1 := xorBuffer_accept e b key [Value.int p] m hkey hmb hb hlen hv1
    have h2 := xorBuffer_accept e b key [Value.int (p % 4)] m hkey hmb hb hlen hv2
    have hq : phaseOf [Value.int (p % 4)] % 4 = phaseOf [Value.int p] % 4 := by
      simp only [phaseOf, int32Value_of_isInt32 _ hi2,
        int32Value_of_isInt32 p (by simp [Value.IsInt32, hp]), toSizeT_mod_four]
      omega
    refine ⟨by omega, _, _, h1, ?_⟩
    rw [h2, maskBytes_congr m _ _ hq]
    congr 3
    omega
  · intro hp
    simp [xorBuffer, arg, Buffer.HasInstance, Value.IsInt32, hp, throwException]

/-- Witness of C9 (amended): phase `-1` with the text key "abcd". -/
theorem phase_reduction_witness :
    (IsBytes [0, 0, 0, 0, 0] ∧ [0, 0, 0, 0, 0].length < 2 ^ 33 ∧
      keyMask Endian.little (Value.string "abcd") = some [97, 98, 99, 100] ∧
      IsBytes [97, 98, 99, 100] ∧ ((-2147483648 : Int) ≤ -1 ∧ (-1 : Int) ≤ 2147483647)) ∧
    ((0 ≤ (-1 : Int) % 4 ∧ (-1 : Int) % 4 < 4) ∧
    ∃ out phase,
      xorBuffer Endian.little [Value.buffer [0, 0, 0, 0, 0], Value.string "abcd", Value.int (-1)]
        = some ([Value.buffer out, Value.string "abcd", Value.int (-1)],
            Completion.returned phase) ∧
      xorBuffer Endian.little
          [Value.buffer [0, 0, 0, 0, 0], Value.string "abcd", Value.int ((-1) % 4)]
        = some ([Value.buffer out, Value.string "abcd", Value.int ((-1) % 4)],
            Completion.returned phase)) :=
  ⟨⟨by decide, by decide, by decide, by decide, by decide⟩,
    (phase_reduction Endian.little [0, 0, 0, 0, 0] (Value.string "abcd") [97, 98, 99, 100] (-1)
      (by decide) (by decide) (by decide) (by decide)).1 (by decide)⟩

/-- C10, counterexample. A call with four arguments is not rejected: it masks the
buffer as the two-argument call does (the third argument, 1, is not read) and
returns phase 1, so it throws no exception. -/
theorem extra_argument_accepted :
    xorBuffer Endian.little
        [Value.buffer [0], Value.buffer [1, 2, 3, 4], Value.int 1, Value.misc]
      = some ([Value.buffer [1], Value.buffer [1, 2, 3, 4], Value.int 1, Value.misc],
          Completion.returned 1) ∧
    ¬ ∃ args1 name msg, xorBuffer Endian.little
        [Value.buffer [0], Value.buffer [1, 2, 3, 4], Value.int 1, Value.misc]
      = some (args1, Completion.threw name msg) := by
  have h : xorBuffer Endian.little
        [Value.buffer [0], Value.buffer [1, 2, 3, 4], Value.int 1, Value.misc]
      = some ([Value.buffer [1], Value.buffer [1, 2, 3, 4], Value.int 1, Value.misc],
          Completion.returned 1) := by
    decide
  refine ⟨h, ?_⟩
  rintro ⟨a, n, msg, hq⟩
  rw [h] at hq
  simp at hq

/-- C10, amended. A call throws `illegalArgumentCountException` (the specification's
`MissingArguments`) exactly when it has fewer than two arguments; the arguments
are then untouched and the message is "Expected 2 arguments". -/
theorem argument_count_validation (e : Endian) (args args1 : List Value) (msg : String) :
    xorBuffer e args
        = some (args1, Completion.threw XorException.illegalArgumentCountException msg)
      ↔ (args.length < 2 ∧ args1 = args ∧ msg = "Expected 2 arguments") := by
  constructor
  · intro h
    simp only [xorBuffer] at h
    split_ifs at h with h1 h2 h3 h4
    · simp only [throwException, Option.some.injEq, Prod.mk.injEq, Completion.threw.injEq,
        true_and] at h
      exact ⟨h1, h.1.symm, h.2.symm⟩
    · simp [throwException] at h
    · simp [throwException] at h
    · have := (xorBufferKey_threw e _ _ _ _ _ _ h).2
      simp at this
    · have := (xorBufferKey_threw e _ _ _ _ _ _ h).2
      simp at this
  · rintro ⟨h1, rfl, rfl⟩
    simp [xorBuffer, h1, throwException]

/-- C11. Default phase: for every buffer and every accepted key, the two-argument call
gives the output bytes and the returned phase of the three-argument call with
phase 0. -/
theorem default_phase (e : Endian) (b : List Nat) (key : Value) (m : List Nat)
    (hb : IsBytes b) (hlen : b.length < 2 ^ 33)
    (hkey : keyMask e key = some m) (hmb : IsBytes m) :
    ∃ out phase,
      xorBuffer e [Value.buffer b, key]
        = some ([Value.buffer out, key], Completion.returned phase) ∧
      xorBuffer e [Value.buffer b, key, Value.int 0]
        = some ([Value.buffer out, key, Value.int 0], Completion.returned phase) := by
  have h0 : phaseOf [Value.int 0] = phaseOf [] := by decide
  have h1 := xorBuffer_accept e b key [] m hkey hmb hb hlen trivial
  have h2 := xorBuffer_accept e b key [Value.int 0] m hkey hmb hb hlen (by decide)
  rw [h0] at h2
  exact ⟨_, _, h1, h2⟩

/-- Witness of C11: the integer key 1 on a little-endian platform. -/
theorem default_phase_witness :
    (IsBytes [0, 0, 0, 0, 0] ∧ [0, 0, 0, 0, 0].length < 2 ^ 33 ∧
      keyMask Endian.little (Value.int 1) = some [1, 0, 0, 0] ∧ IsBytes [1, 0, 0, 0]) ∧
    ∃ out phase,
      xorBuffer Endian.little [Value.buffer [0, 0, 0, 0, 0], Value.int 1]
        = some ([Value.buffer out, Value.int 1], Completion.returned phase) ∧
      xorBuffer Endian.little [Value.buffer [0, 0, 0, 0, 0], Value.int 1, Value.int 0]
        = some ([Value.buffer out, Value.int 1, Value.int 0], Completion.returned phase) :=
  ⟨⟨by decide, by decide, by decide, by decide⟩,
    default_phase Endian.little [0, 0, 0, 0, 0] (Value.int 1) [1, 0, 0, 0] (by decide)
      (by decide) (by decide) (by decide)⟩

/-- C12. Empty buffer: for every accepted key and every phase, masking a zero-length
buffer returns a zero-length buffer, neither loop body runs and no byte of the
buffer is read or written, and the phase returned is `p mod 4` (0 when the phase
is absent). The phase `q` of `_xor` is any `size_t`; the phase `p` of `xorBuffer`
is any integer accepted by `IsInt32`. -/
theorem empty_buffer (e : Endian) (key : Value) (m : List Nat) (q : Nat) (p : Int)
    (hkey : keyMask e key = some m) (hmb : IsBytes m)
    (hp : -2147483648 ≤ p ∧ p ≤ 2147483647) :
    (∃ t, _xorTraced e [] m 4 q = some ([], q % 4, t) ∧ t.wordIterations = 0 ∧
      t.byteIterations = 0 ∧ t.bufferIndices = []) ∧
    _xor e [] m 4 q = some ([], q % 4) ∧
    xorBuffer e [Value.buffer [], key, Value.int p]
      = some ([Value.buffer [], key, Value.int p], Completion.returned (p % 4).toNat) ∧
    xorBuffer e [Value.buffer [], key]
      = some ([Value.buffer [], key], Completion.returned 0) := by
  have hm := keyMask_length e key m hkey
  have hnil : IsBytes [] := fun x hx => by simp at hx
  have hx := xor_spec e [] m 4 q hnil hm hmb (by decide)
  simp only [maskBytes, List.length_nil, Nat.add_zero] at hx
  have hi : (Value.int p).IsInt32 = true := by simp [Value.IsInt32, hp]
  refine ⟨?_, hx, ?_, ?_⟩
  · obtain ⟨out, ph, t, ht, hwi, hbi, hbuf, _, _⟩ :=
      xorTraced_spec e [] m 4 q (by decide) hm
    have her := xorTraced_erase e [] m 4 q
    rw [ht, hx] at her
    simp only [Option.map_some', Option.some.injEq, Prod.mk.injEq] at her
    obtain ⟨rfl, rfl⟩ := her
    refine ⟨t, ht, by simpa using hwi, by simpa using hbi, ?_⟩
    apply List.eq_nil_iff_forall_not_mem.mpr
    intro i hi
    have := hbuf i hi
    simp at this
  · have h := xorBuffer_accept e [] key [Value.int p] m hkey hmb hnil (by decide) hi
    have hq : (phaseOf [Value.int p] + ([] : List Nat).length) % 4 = (p % 4).toNat := by
      simp only [phaseOf, int32Value_of_isInt32 p hi, List.length_nil, Nat.add_zero,
        toSizeT_mod_four]
    rw [hq] at h
    exact h
  · exact xorBuffer_accept e [] key [] m hkey hmb hnil (by decide) trivial

/-- Witness of C12: the text key "abcd", `_xor` at phase 6 and `xorBuffer` at
phase `-1`. -/
theorem empty_buffer_witness :
    (keyMask Endian.big (Value.string "abcd") = some [97, 98, 99, 100] ∧
      IsBytes [97, 98, 99, 100] ∧ ((-2147483648 : Int) ≤ -1 ∧ (-1 : Int) ≤ 2147483647)) ∧
    ((∃ t, _xorTraced Endian.big [] [97, 98, 99, 100] 4 6 = some ([], 6 % 4, t) ∧
        t.wordIterations = 0 ∧ t.byteIterations = 0 ∧ t.bufferIndices = []) ∧
      _xor Endian.big [] [97, 98, 99, 100] 4 6 = some ([], 6 % 4) ∧
      xorBuffer Endian.big [Value.buffer [], Value.string "abcd", Value.int (-1)]
        = some ([Value.buffer [], Value.string "abcd", Value.int (-1)],
            Completion.returned ((-1 : Int) % 4).toNat) ∧
      xorBuffer Endian.big [Value.buffer [], Value.string "abcd"]
        = some ([Value.buffer [], Value.string "abcd"], Completion.returned 0)) :=
  ⟨⟨by decide, by decide, by decide⟩,
    empty_buffer Endian.big (Value.string "abcd") [97, 98, 99, 100] 6 (-1) (by decide)
      (by decide) (by decide)⟩

/-- C13, counterexample. The key 4294967295 is an integer, the buffer and the absent
phase are fine, yet the call throws `illegalArgumentException`. -/
theorem integer_key_not_validated :
    xorBuffer Endian.big [Value.buffer [1, 2, 3], Value.int 4294967295]
      = some ([Value.buffer [1, 2, 3], Value.int 4294967295],
          Completion.threw XorException.illegalArgumentException
            "Second argument should be either a string, a buffer or an integer.") ∧
    ¬ Accepted (xorBuffer Endian.big [Value.buffer [1, 2, 3], Value.int 4294967295]) := by
  have h : xorBuffer Endian.big [Value.buffer [1, 2, 3], Value.int 4294967295]
      = some ([Value.buffer [1, 2, 3], Value.int 4294967295],
          Completion.threw XorException.illegalArgumentException
            "Second argument should be either a string, a buffer or an integer.") := by
    decide
  refine ⟨h, ?_⟩
  rintro ⟨a, q, hq⟩
  rw [h] at hq
  simp at hq

/-- C13, amended. No failure on validated input: for every buffer, every key that is an
integer in the signed 32-bit range, a text key of exactly 4 UTF-8 bytes or a buffer
of exactly 4 bytes, and every phase that is absent or an integer in the signed
32-bit range, the call returns a phase (below 4) and throws nothing; the buffer
keeps its length. -/
theorem no_failure_on_validated_input (e : Endian) (b : List Nat) (key : Value)
    (rest : List Value) (hb : IsBytes b) (hlen : b.length < 2 ^ 33)
    (hkey : (∃ k : Int, key = Value.int k ∧ -2147483648 ≤ k ∧ k ≤ 2147483647) ∨
      (∃ s : String, key = Value.string s ∧ (Utf8Value s).length = 4) ∨
      (∃ k : List Nat, key = Value.buffer k ∧ k.length = 4 ∧ IsBytes k))
    (hrest : rest = [] ∨ ∃ p : Int, rest = [Value.int p] ∧ -2147483648 ≤ p ∧ p ≤ 2147483647) :
    ∃ out phase,
      xorBuffer e (Value.buffer b :: key :: rest)
        = some (Value.buffer out :: key :: rest, Completion.returned phase) ∧
      phase < 4 ∧ out.length = b.length := by
  have hv : ValidPhase rest := by
    rcases hrest with rfl | ⟨p, rfl, hp⟩
    · trivial
    · simp [ValidPhase, Value.IsInt32, hp]
  have hm : ∃ m, keyMask e key = some m ∧ IsBytes m := by
    rcases hkey with ⟨k, rfl, hk⟩ | ⟨s, rfl, hs⟩ | ⟨k, rfl, hk, hkb⟩
    · exact ⟨bytesOfWord e (k % 4294967296).toNat, by simp [keyMask, hk],
        bytesOfWord_isBytes e _⟩
    · exact ⟨Utf8Value s, by simp [keyMask, hs], utf8Value_isBytes s⟩
    · exact ⟨k, by simp [keyMask, hk], hkb⟩
  obtain ⟨m, hkm, hmb⟩ := hm
  exact ⟨_, _, xorBuffer_accept e b key rest m hkm hmb hb hlen hv,
    Nat.mod_lt _ (by norm_num), maskBytes_length m _ b⟩

/-- Witness of C13 (amended): an empty buffer, the key `-1`, the phase `-3`. -/
theorem no_failure_on_validated_input_witness :
    (IsBytes [] ∧ ([] : List Nat).length < 2 ^ 33 ∧
      ((∃ k : Int, Value.int (-1) = Value.int k ∧ -2147483648 ≤ k ∧ k ≤ 2147483647) ∨
        (∃ s : String, Value.int (-1) = Value.string s ∧ (Utf8Value s).length = 4) ∨
        (∃ k : List Nat, Value.int (-1) = Value.buffer k ∧ k.length = 4 ∧ IsBytes k)) ∧
      ([Value.int (-3)] = [] ∨
        ∃ p : Int, [Value.int (-3)] = [Value.int p] ∧ -2147483648 ≤ p ∧ p ≤ 2147483647)) ∧
    ∃ out phase,
      xorBuffer Endian.little [Value.buffer [], Value.int (-1), Value.int (-3)]
        = some ([Value.buffer out, Value.int (-1), Value.int (-3)],
            Completion.returned phase) ∧
      phase < 4 ∧ out.length = ([] : List Nat).length :=
  ⟨⟨by decide, by decide, Or.inl ⟨-1, rfl, by decide, by decide⟩,
      Or.inr ⟨-3, rfl, by decide, by decide⟩⟩,
    no_failure_on_validated_input Endian.little [] (Value.int (-1)) [Value.int (-3)]
      (by decide) (by decide) (Or.inl ⟨-1, rfl, by decide, by decide⟩)
      (Or.inr ⟨-3, rfl, by decide, by decide⟩)⟩

/-- C14. Buffer-argument validation: every call with at least two arguments whose
first argument is not a Buffer throws `illegalFirstArgumentException` (the
specification's `InvalidBufferArgument`), whatever the key and the phase are. -/
theorem buffer_argument_validation (e : Endian) (args : List Value)
    (hn : 2 ≤ args.length) (h0 : Buffer.HasInstance (arg args 0) = false) :
    xorBuffer e args
      = some (args, Completion.threw XorException.illegalFirstArgumentException
          "First argument must be a Buffer") := by
  have hn1 : ¬ args.length < 2 := by omega
  simp [xorBuffer, hn1, h0, throwException]

/-- Witness of C14: a text first argument, with a key and a phase that are fine. -/
theorem buffer_argument_validation_witness :
    (2 ≤ [Value.string "data", Value.buffer [1, 2, 3, 4], Value.int 0].length ∧
      Buffer.HasInstance (arg [Value.string "data", Value.buffer [1, 2, 3, 4], Value.int 0] 0)
        = false) ∧
    xorBuffer Endian.little [Value.string "data", Value.buffer [1, 2, 3, 4], Value.int 0]
      = some ([Value.string "data", Value.buffer [1, 2, 3, 4], Value.int 0],
          Completion.threw XorException.illegalFirstArgumentException
            "First argument must be a Buffer") :=
  ⟨⟨by decide, by decide⟩,
    buffer_argument_validation Endian.little
      [Value.string "data", Value.buffer [1, 2, 3, 4], Value.int 0] (by decide) (by decide)⟩

/-- C15, counterexample. The key 3000000000 is an integer of the unsigned 32-bit range,
one of the three accepted shapes, and the call throws `illegalArgumentException`
(the specification's `UnsupportedMaskType`). -/
theorem integer_key_unsupported :
    xorBuffer Endian.little [Value.buffer [7], Value.int 3000000000, Value.int 2]
      = some ([Value.buffer [7], Value.int 3000000000, Value.int 2],
          Completion.threw XorException.illegalArgumentException
            "Second argument should be either a string, a buffer or an integer.") := by
  decide

/-- C15, amended. With a buffer first and a well-formed or absent phase, a key that is
neither an integer in the signed 32-bit range, nor a text, nor a Buffer makes the
call throw `illegalArgumentException` (`UnsupportedMaskType`), and a key that is
one of these three never does. -/
theorem unsupported_key (e : Endian) (b : List Nat) (key : Value) (rest : List Value)
    (hrest : ValidPhase rest) :
    ((key.IsInt32 = false ∧ key.IsString = false ∧ Buffer.HasInstance key = false) →
      xorBuffer e (Value.buffer b :: key :: rest)
        = some (Value.buffer b :: key :: rest,
            Completion.threw XorException.illegalArgumentException
              "Second argument should be either a string, a buffer or an integer.")) ∧
    ((key.IsInt32 = true ∨ key.IsString = true ∨ Buffer.HasInstance key = true) →
      ∀ (args1 : List Value) (msg : String),
        xorBuffer e (Value.buffer b :: key :: rest)
          ≠ some (args1, Completion.threw XorException.illegalArgumentException msg)) := by
  rw [xorBuffer_dispatch e b key rest hrest]
  constructor
  · rintro ⟨h1, h2, h3⟩
    simp [xorBufferKey, arg, h1, h2, h3, throwException]
  · intro h args1 msg hx
    simp only [xorBufferKey, arg, List.getD_cons_succ, List.getD_cons_zero] at hx
    split_ifs at hx with h1 h2 h3 h4 h5
    · exact returnXor_ne_threw _ _ _ _ _ hx
    · simp [throwException] at hx
    · exact returnXor_ne_threw _ _ _ _ _ hx
    · simp [throwException] at hx
    · exact returnXor_ne_threw _ _ _ _ _ hx
    · rcases h with h | h | h
      · exact h1 h
      · exact h2 h
      · exact h4 h

/-- Witness of C15 (amended): a key that is a fraction, and no phase. -/
theorem unsupported_key_witness :
    (ValidPhase [] ∧ (Value.number.IsInt32 = false ∧ Value.number.IsString = false ∧
      Buffer.HasInstance Value.number = false)) ∧
    xorBuffer Endian.little [Value.buffer [1, 2], Value.number]
      = some ([Value.buffer [1, 2], Value.number],
          Completion.threw XorException.illegalArgumentException
            "Second argument should be either a string, a buffer or an integer.") :=
  ⟨⟨trivial, by decide⟩,
    (unsupported_key Endian.little [1, 2] Value.number [] trivial).1 (by decide)⟩

/-- C16, counterexample. In a call with four arguments the third argument is present and
is a text, not an integer, yet the call throws nothing: it masks the buffer at
phase 0 and returns phase 1. -/
theorem phase_unchecked_with_four_arguments :
    xorBuffer Endian.little
        [Value.buffer [0], Value.buffer [1, 2, 3, 4], Value.string "x", Value.int 0]
      = some ([Value.buffer [1], Value.buffer [1, 2, 3, 4], Value.string "x", Value.int 0],
          Completion.returned 1) := by
  decide

/-- C16, amended. A call throws `illegalThirdArgumentException` (the specification's
`InvalidPhaseArgument`) exactly when it has three arguments, the first one a
Buffer, and the third one not an integer of the signed 32-bit range; every
three-argument call with a Buffer first and a third argument that is not an
integer is among them. -/
theorem phase_argument_validation (e : Endian) (args args1 : List Value) (msg : String) :
    xorBuffer e args
        = some (args1, Completion.threw XorException.illegalThirdArgumentException msg)
      ↔ (args.length = 3 ∧ Buffer.HasInstance (arg args 0) = true ∧
          (arg args 2).IsInt32 = false ∧ args1 = args ∧
          msg = "Third argument must be a number") := by
  constructor
  · intro h
    simp only [xorBuffer] at h
    split_ifs at h with h1 h2 h3 h4
    · simp [throwException] at h
    · simp [throwException] at h
    · simp only [throwException, Option.some.injEq, Prod.mk.injEq, Completion.threw.injEq,
        true_and] at h
      refine ⟨h3, ?_, ?_, h.1.symm, h.2.symm⟩
      · simpa using h2
      · simpa using h4
    · have := (xorBufferKey_threw e _ _ _ _ _ _ h).2
      simp at this
    · have := (xorBufferKey_threw e _ _ _ _ _ _ h).2
      simp at this
  · rintro ⟨h1, h2, h3, rfl, rfl⟩
    have hn : ¬ args1.length < 2 := by omega
    simp [xorBuffer, hn, h1, h2, h3, throwException]

/-- C19, counterexample. A call with four arguments has a third argument that is no
integer and a 3-byte key: it throws the key exception
`illegalStringArgumentException`, not the phase exception, although the phase
comes before the key in the order of the claim. -/
theorem key_error_before_unread_phase :
    xorBuffer Endian.little
        [Value.buffer [0], Value.buffer [1, 2, 3], Value.string "x", Value.int 0]
      = some ([Value.buffer [0], Value.buffer [1, 2, 3], Value.string "x", Value.int 0],
          Completion.threw XorException.illegalStringArgumentException
            "Second argument must be a 4 bytes Buffer") ∧
    (arg [Value.buffer [0], Value.buffer [1, 2, 3], Value.string "x", Value.int 0] 2).IsInt32
      = false := by
  refine ⟨by decide, by decide⟩

/-- C19, amended. Error precedence: the checks of `xorBuffer` are, in this order, the
argument count (fewer than two), the first argument (no Buffer), the phase (only
in a call with exactly three arguments: the third fails `IsInt32`) and the key;
a call throws the exception `name` exactly when `name` is the exception of the
first of these four checks that fails. So a call fails when one check at least
fails, and it reports the error of the first failing check and no other. -/
theorem error_precedence (e : Endian) (args : List Value) (name : XorException) :
    (∃ args1 msg, xorBuffer e args = some (args1, Completion.threw name msg))
      ↔ [countCheck args, bufferCheck args, phaseCheck args, keyCheck args].findSome? id
          = some name :=
  xorBuffer_firstError e args name

/-- Witness of C19 (amended): the example of the claim, a three-argument call with a
phase that is no integer and a 3-byte key, throws for the phase; with a first
argument that is no Buffer as well it throws for the first argument. Both the
phase check and the key check fail in the first call, three checks in the
second. -/
theorem error_precedence_witness :
    (phaseCheck [Value.buffer [0], Value.buffer [1, 2, 3], Value.number]
        = some XorException.illegalThirdArgumentException ∧
      keyCheck [Value.buffer [0], Value.buffer [1, 2, 3], Value.number]
        = some XorException.illegalStringArgumentException ∧
      ∃ args1 msg,
        xorBuffer Endian.little [Value.buffer [0], Value.buffer [1, 2, 3], Value.number]
          = some (args1, Completion.threw XorException.illegalThirdArgumentException msg)) ∧
    (bufferCheck [Value.misc, Value.buffer [1, 2, 3], Value.number]
        = some XorException.illegalFirstArgumentException ∧
      phaseCheck [Value.misc, Value.buffer [1, 2, 3], Value.number]
        = some XorException.illegalThirdArgumentException ∧
      keyCheck [Value.misc, Value.buffer [1, 2, 3], Value.number]
        = some XorException.illegalStringArgumentException ∧
      ∃ args1 msg,
        xorBuffer Endian.little [Value.misc, Value.buffer [1, 2, 3], Value.number]
          = some (args1, Completion.threw XorException.illegalFirstArgumentException msg)) :=
  ⟨⟨by decide, by decide,
      (error_precedence Endian.little [Value.buffer [0], Value.buffer [1, 2, 3], Value.number]
        XorException.illegalThirdArgumentException).mpr (by decide)⟩,
    ⟨by decide, by decide, by decide,
      (error_precedence Endian.little [Value.misc, Value.buffer [1, 2, 3], Value.number]
        XorException.illegalFirstArgumentException).mpr (by decide)⟩⟩

/-! ## Claims on the implementation of the engine -/

/-- C17. Optimised path equals naive path: the two `memcpy` build the phase-rotated
mask `m'`; the word loop XORs the `floor(len/4)` whole words with the word of `m'`
and leaves the tail; the tail loop XORs the remaining `len mod 4` bytes starting at
byte 0 of `m'`; and the buffer `_xor` returns is the one of the naive loop
`buffer[i] ^= m'[i mod 4]`, on a little-endian and on a big-endian platform
alike. -/
theorem optimised_eq_naive (e : Endian) (b m : List Nat) (p : Nat)
    (hb : IsBytes b) (hlen : b.length < 2 ^ 33) (hm : m.length = 4) (hmb : IsBytes m) :
    (∃ mask0, memcpy [0, 0, 0, 0] 0 m (p &&& 3) (4 - (p &&& 3)) = some mask0 ∧
      (if p &&& 3 > 0 then memcpy mask0 (4 - (p &&& 3)) m 0 (p &&& 3) else some mask0)
        = some (rotateMask m p)) ∧
    wordLoop e (rotateMask m p) ((0 : Nat) + toInt32 (b.length >>> 2)) (b.length + 1) b 0
      = some (naiveXor (rotateMask m p) (b.take (4 * (b.length / 4)))
          ++ b.drop (4 * (b.length / 4)), b.length / 4) ∧
    byteLoop (rotateMask m p) b.length (b.length + 1)
        (naiveXor (rotateMask m p) (b.take (4 * (b.length / 4)))
          ++ b.drop (4 * (b.length / 4))) (4 * (b.length / 4)) 0
      = some (naiveXor (rotateMask m p) b, b.length % 4) ∧
    _xor e b m 4 p = some (naiveXor (rotateMask m p) b, (p + b.length) % 4) ∧
    _xor Endian.little b m 4 p = _xor Endian.big b m 4 p := by
  obtain ⟨m0, m1, m2, m3, t, rfl⟩ := exists_four m (by omega)
  have ht : t = [] := by
    simp only [List.length_cons] at hm
    exact List.length_eq_zero.mp (by omega)
  subst ht
  have hk : p % 4 < 4 := Nat.mod_lt _ (by norm_num)
  have hrot := rotateMask_eq_rotated m0 m1 m2 m3 p
  have hrb := rotated_isBytes m0 m1 m2 m3 (p % 4) hmb
  obtain ⟨r0, r1, r2, r3, t, hr⟩ := exists_four (rotated m0 m1 m2 m3 (p % 4))
    (by rw [rotated_length])
  have ht : t = [] := by
    have := rotated_length m0 m1 m2 m3 (p % 4)
    rw [hr] at this
    simp only [List.length_cons] at this
    exact List.length_eq_zero.mp (by omega)
  subst ht
  have hnaive : maskBytes [r0, r1, r2, r3] 0 b = maskBytes [m0, m1, m2, m3] p b := by
    rw [← hr, maskBytes_rotated m0 m1 m2 m3 (p % 4) hk 0 b,
      Nat.add_zero, maskBytes_congr _ (p % 4) p (by omega)]
  have hmem := memcpy_rotate m0 m1 m2 m3 (p % 4) hk
  rw [hr] at hrb hmem
  obtain ⟨hw, hbl⟩ := loops_explicit e b r0 r1 r2 r3 hb hrb hlen
  simp only [hrot, hr, naiveXor_eq_maskBytes, and_three]
  refine ⟨hmem, hw, hbl, ?_, ?_⟩
  · rw [hnaive]; exact xor_spec e b _ 4 p hb hm hmb hlen
  · rw [xor_spec Endian.little b _ 4 p hb hm hmb hlen,
      xor_spec Endian.big b _ 4 p hb hm hmb hlen]

/-- Witness of C17: an 11-byte buffer at phase 3, two words and three tail bytes. -/
theorem optimised_eq_naive_witness :
    (IsBytes [0, 0, 0, 0, 0, 7, 8, 9, 10, 11, 12] ∧
      [0, 0, 0, 0, 0, 7, 8, 9, 10, 11, 12].length < 2 ^ 33 ∧ [1, 2, 3, 4].length = 4 ∧
      IsBytes [1, 2, 3, 4]) ∧
    _xor Endian.big [0, 0, 0, 0, 0, 7, 8, 9, 10, 11, 12] [1, 2, 3, 4] 4 3
      = some (naiveXor (rotateMask [1, 2, 3, 4] 3) [0, 0, 0, 0, 0, 7, 8, 9, 10, 11, 12],
          (3 + [0, 0, 0, 0, 0, 7, 8, 9, 10, 11, 12].length) % 4) ∧
    rotateMask [1, 2, 3, 4] 3 = [4, 1, 2, 3] ∧
    naiveXor [4, 1, 2, 3] [0, 0, 0, 0, 0, 7, 8, 9, 10, 11, 12]
      = [4, 1, 2, 3, 4, 6, 10, 10, 14, 10, 14] :=
  ⟨⟨by decide, by decide, rfl, by decide⟩,
    (optimised_eq_naive Endian.big [0, 0, 0, 0, 0, 7, 8, 9, 10, 11, 12] [1, 2, 3, 4] 3
      (by decide) (by decide) rfl (by decide)).2.2.2.1,
    by decide, by decide⟩

/-- C18. Bounds and termination of the two passes: for every buffer whose word count
`floor(n/4)` is below 2^31, every 4-byte pattern and every phase, `_xor` returns;
the word loop body runs `floor(n/4)` times and the tail loop body `n mod 4 <= 3`
times; every buffer offset accessed is below `n`; every offset of the rotated
mask written by the two `memcpy` or read by the loops, and every offset of the
pattern read by the two `memcpy`, is at most 3. -/
theorem xor_bounds (e : Endian) (b m : List Nat) (p : Nat)
    (hlen : b.length / 4 < 2 ^ 31) (hm : m.length = 4) :
    ∃ out phase t, _xorTraced e b m 4 p = some (out, phase, t) ∧
      _xor e b m 4 p = some (out, phase) ∧
      t.wordIterations = b.length / 4 ∧ t.byteIterations = b.length % 4 ∧
      t.byteIterations ≤ 3 ∧
      (∀ i ∈ t.bufferIndices, i < b.length) ∧ (∀ i ∈ t.maskIndices, i ≤ 3) ∧
      (∀ i ∈ t.patternIndices, i ≤ 3) := by
  obtain ⟨out, phase, t, ht, hwi, hbi, hbuf, hmask, hpat⟩ := xorTraced_spec e b m 4 p hlen hm
  refine ⟨out, phase, t, ht, ?_, hwi, hbi, by omega, hbuf, hmask, hpat⟩
  rw [← xorTraced_erase, ht]
  rfl

/-- Witness of C18: an 11-byte buffer at phase 3. -/
theorem xor_bounds_witness :
    ([0, 0, 0, 0, 0, 7, 8, 9, 10, 11, 12].length / 4 < 2 ^ 31 ∧ [1, 2, 3, 4].length = 4) ∧
    (∃ out phase t,
      _xorTraced Endian.little [0, 0, 0, 0, 0, 7, 8, 9, 10, 11, 12] [1, 2, 3, 4] 4 3
        = some (out, phase, t) ∧
      _xor Endian.little [0, 0, 0, 0, 0, 7, 8, 9, 10, 11, 12] [1, 2, 3, 4] 4 3
        = some (out, phase) ∧
      t.wordIterations = [0, 0, 0, 0, 0, 7, 8, 9, 10, 11, 12].length / 4 ∧
      t.byteIterations = [0, 0, 0, 0, 0, 7, 8, 9, 10, 11, 12].length % 4 ∧
      t.byteIterations ≤ 3 ∧
      (∀ i ∈ t.bufferIndices, i < [0, 0, 0, 0, 0, 7, 8, 9, 10, 11, 12].length) ∧
      (∀ i ∈ t.maskIndices, i ≤ 3) ∧ (∀ i ∈ t.patternIndices, i ≤ 3)) ∧
    _xorTraced Endian.little [0, 0, 0, 0, 0, 7, 8, 9, 10, 11, 12] [1, 2, 3, 4] 4 3
      = some ([4, 1, 2, 3, 4, 6, 10, 10, 14, 10, 14], 2,
          Trace.mk 2 3 [0, 1, 2, 3, 4, 5, 6, 7, 8, 9, 10]
            [0, 1, 2, 3, 0, 1, 2, 3, 0, 1, 2, 3, 0, 1, 2] [3, 0, 1, 2]) :=
  ⟨⟨by decide, rfl⟩,
    xor_bounds Endian.little [0, 0, 0, 0, 0, 7, 8, 9, 10, 11, 12] [1, 2, 3, 4] 3
      (by decide) rfl,
    by decide⟩

end XorModule
